import Mathlib

/-!
Verification of the ai-index repository (section-resolution engine).

Strings are modelled as lists of characters (`Str`).  Each definition below
is a shallow embedding of a function of the JavaScript sources
(src/index.mjs, src/mcp-server.mjs, and the standalone CLI script); doc
comments name the embedded function.  The regular-expression operations of
the sources are modelled by deterministic scanners that implement the
backtracking semantics of the concrete patterns used there.
-/

set_option maxRecDepth 16000

abbrev Str := List Char

/-- JS whitespace class (the characters relevant to this code base). -/
def wsChar (c : Char) : Bool :=
  c = ' ' || c = '\t' || c = '\n' || c = '\r' || c = '\x0b' || c = '\x0c'

/-- JS word-character class for the \w regex class (ASCII). -/
def wordChar (c : Char) : Bool :=
  ('a' ≤ c && c ≤ 'z') || ('A' ≤ c && c ≤ 'Z') || ('0' ≤ c && c ≤ '9') || c = '_'

/-- Model of String.prototype.trim, as a list operation. -/
def trimStr (s : Str) : Str :=
  ((s.dropWhile wsChar).reverse.dropWhile wsChar).reverse

/-- Model of String.prototype.padEnd(n) with spaces. -/
def padEndC (s : Str) (n : Nat) : Str := s ++ List.replicate (n - s.length) ' '

/-- Model of String.prototype.padStart(n) with spaces. -/
def padStartC (s : Str) (n : Nat) : Str := List.replicate (n - s.length) ' ' ++ s

/-- Model of String.prototype.split("\n"). -/
def splitLines : Str → List Str
  | [] => [[]]
  | c :: rest =>
    if c = '\n' then [] :: splitLines rest
    else
      match splitLines rest with
      | l :: ls => (c :: l) :: ls
      | [] => [[c]]

/-- Model of Array.prototype.join("\n"). -/
def joinLines : List Str → Str
  | [] => []
  | [l] => l
  | l :: ls => l ++ '\n' :: joinLines ls

/-- Decimal digit character for n, n interpreted modulo the 0..9 range. -/
def digitChar : Nat → Char
  | 0 => '0' | 1 => '1' | 2 => '2' | 3 => '3' | 4 => '4'
  | 5 => '5' | 6 => '6' | 7 => '7' | 8 => '8' | _ => '9'

/-- Fuel-driven decimal rendering of a natural number. -/
def natDigitsAux : Nat → Nat → Str
  | 0, _ => []
  | k + 1, n =>
    if n < 10 then [digitChar n]
    else natDigitsAux k (n / 10) ++ [digitChar (n % 10)]

/-- Model of JS String(n) for a non-negative integer n. -/
def natDigits (n : Nat) : Str := natDigitsAux n.succ n

/-- Model of JS String(i) for an integer i. -/
def intDigits (i : Int) : Str :=
  if i < 0 then '-' :: natDigits i.natAbs else natDigits i.toNat

/-- Model of JS parseInt on a digit string. -/
def digitsToNat (ds : Str) : Nat := ds.foldl (fun a c => a * 10 + (c.toNat - 48)) 0

/-- Substring test: does pat occur inside s (String.prototype.includes)? -/
def strHasSub (pat : Str) : Str → Bool
  | [] => pat.isEmpty
  | c :: rest => pat.isPrefixOf (c :: rest) || strHasSub pat rest

/-- Literal matcher: consume lit at the front of s or fail. -/
def expectLit (lit : Str) (s : Str) : Option Str :=
  if lit.isPrefixOf s then some (s.drop lit.length) else none

/-- Case-insensitive literal matcher (for the /i regex flag). -/
def expectLitCI (lit : Str) (s : Str) : Option Str :=
  if (lit.map Char.toLower).isPrefixOf ((s.take lit.length).map Char.toLower) ∧
      lit.length ≤ s.length then
    some (s.drop lit.length)
  else none

/-! ## Index Block Codec: the stored-block parser

Model of the regex scan in parseIndex (src/index.mjs 89-115) and the
identical parseExistingIndex of the CLI script.  The row regex is

  \|\s*([^\|]+?)\s*\|\s*(\d+)\s*\|\s*(\d+)\s*\|(?:\s*(\d+)\s*\|)?(?:\s*([^\|]*?)\s*\|)?

applied with matchAll over the block; the functions below implement the
deterministic residue of its backtracking semantics. -/

/-- One raw match of the table-row regex: the five capture groups. -/
structure RowData where
  name : Str
  line : Nat
  endL : Nat
  size? : Option Nat
  desc? : Option Str
deriving DecidableEq, Repr

/-- Split a cell: text up to the next pipe, and the rest after that pipe. -/
def cellSplit (s : Str) : Option (Str × Str) :=
  let c := s.takeWhile (fun x => x ≠ '|')
  match s.dropWhile (fun x => x ≠ '|') with
  | '|' :: r2 => some (c, r2)
  | _ => none

/-- Capture of \s*([^|]+?)\s* over a cell body: the trimmed text, or the
last character when the cell is entirely whitespace (one character must be
captured), or failure on an empty cell. -/
def nameCapture (c : Str) : Option Str :=
  if c = [] then none
  else if trimStr c ≠ [] then some (trimStr c)
  else some c.getLast?.toList

/-- Capture of \s*([^|]*?)\s* over a cell body (the star variant, which may
capture the empty string). -/
def descCapture (c : Str) : Str := trimStr c

/-- Matcher for \s*(\d+)\s*\| : whitespace, digits, whitespace, pipe. -/
def parseNumCell (s : Str) : Option (Nat × Str) :=
  if (s.dropWhile wsChar).takeWhile Char.isDigit = [] then none
  else
    match ((s.dropWhile wsChar).dropWhile Char.isDigit).dropWhile wsChar with
    | '|' :: r => some (digitsToNat ((s.dropWhile wsChar).takeWhile Char.isDigit), r)
    | _ => none

/-- One attempted match of the row regex at the current position.  Returns
the captures and the remaining suffix after the match. -/
def rowMatch : Str → Option (RowData × Str)
  | '|' :: s1 =>
    match cellSplit s1 with
    | none => none
    | some (c1, s2) =>
      match nameCapture c1 with
      | none => none
      | some nm =>
        match parseNumCell s2 with
        | none => none
        | some (ln, s3) =>
          match parseNumCell s3 with
          | none => none
          | some (en, s4) =>
            match parseNumCell s4 with
            | some (sz, s5) =>
              match cellSplit s5 with
              | some (c5, s6) =>
                some (⟨nm, ln, en, some sz, some (descCapture c5)⟩, s6)
              | none => some (⟨nm, ln, en, some sz, none⟩, s5)
            | none =>
              match cellSplit s4 with
              | some (c4, s5) =>
                some (⟨nm, ln, en, none, some (descCapture c4)⟩, s5)
              | none => some (⟨nm, ln, en, none, none⟩, s4)
  | _ => none

/-- Fuel-driven matchAll scan: try the row regex at every position, emit
each match and resume after it. -/
def scanRowsAux : Nat → Str → List RowData
  | 0, _ => []
  | _ + 1, [] => []
  | k + 1, c :: rest =>
    if c = '|' then
      match rowMatch (c :: rest) with
      | some (r, rem) => r :: scanRowsAux k rem
      | none => scanRowsAux k rest
    else scanRowsAux k rest

/-- All matches of the table-row regex over a block, in text order. -/
def scanRows (s : Str) : List RowData := scanRowsAux s.length s

/-- A parsed stored section: value stored under a name key by parseIndex.
The size is an integer because the source computes end − line when the Size
column is absent, which JS evaluates over signed numbers. -/
structure PSect where
  line : Nat
  endL : Nat
  size : Int
  desc : Str
deriving DecidableEq, Repr

/-- Insert with JS-object semantics: an existing key keeps its position and
is overwritten, a new key is appended. -/
def upsert : List (Str × PSect) → Str → PSect → List (Str × PSect)
  | [], k, v => [(k, v)]
  | (k0, v0) :: rest, k, v =>
    if k0 = k then (k0, v) :: rest else (k0, v0) :: upsert rest k v

/-- The row filter and keyed insertion of parseIndex: a row is kept when
its raw name capture is non-empty and contains neither the header label
"Section" nor a dash run "---"; the key is the trimmed capture; the size
defaults to end − line when the Size column was absent; a missing
description defaults to the empty string. -/
def buildSections (rows : List RowData) : List (Str × PSect) :=
  rows.foldl
    (fun m r =>
      if ¬ r.name.isEmpty ∧ ¬ strHasSub "Section".data r.name ∧
          ¬ strHasSub "---".data r.name then
        upsert m (trimStr r.name)
          ⟨r.line, r.endL,
            match r.size? with
            | some z => (z : Int)
            | none => (r.endL : Int) - (r.line : Int),
            r.desc?.getD []⟩
      else m)
    []

/-- Lookup in the keyed section list (JS object property read). -/
def lookupSect (m : List (Str × PSect)) (k : Str) : Option PSect :=
  (m.find? (fun p => p.1 = k)).map (fun p => p.2)

/-! Block locator: the regex

  \/\*\*\s*\n\s*\*\s*@ai-index[\s\S]*?\*\/

finds the first comment block opening "/**", whitespace ending in a
newline, a "*", "@ai-index", then lazily everything up to the first
closing "*" "/" pair. -/

/-- Length (from the current position) through the first "*" "/" pair. -/
def takeThroughSS : Str → Option Nat
  | '*' :: '/' :: _ => some 2
  | _ :: rest => (takeThroughSS rest).map Nat.succ
  | [] => none

/-- Backtracking candidates for \s*\n : the remainders after consuming
through each newline of the leading whitespace run, longest match first. -/
def wsNlCands (s : Str) : List Str :=
  let w := s.takeWhile wsChar
  (((List.range w.length).filter (fun j => w.get? j = some '\n')).reverse).map
    (fun j => s.drop (j + 1))

/-- Try the tail of the block regex on one \s*\n candidate: \s* then "*"
then \s* then "@ai-index" then lazily up to "*" "/".  Returns the length of
the remainder after the whole match. -/
def blockTail (cand : Str) : Option Nat :=
  match (cand.dropWhile wsChar) with
  | '*' :: s4 =>
    match expectLit "@ai-index".data (s4.dropWhile wsChar) with
    | some s6 =>
      match takeThroughSS s6 with
      | some n => some (s6.length - n)
      | none => none
    | none => none
  | _ => none

/-- First candidate that completes the block regex. -/
def firstTail : List Str → Option Nat
  | [] => none
  | c :: cs =>
    match blockTail c with
    | some n => some n
    | none => firstTail cs

/-- Attempt the whole block regex at the current position; returns the
length of the match. -/
def blockAt (s : Str) : Option Nat :=
  match expectLit "/**".data s with
  | some s1 =>
    match firstTail (wsNlCands s1) with
    | some remLen => some (s.length - remLen)
    | none => none
  | none => none

/-- Leftmost match of the block regex: start index and length. -/
def blockMatch : Str → Option (Nat × Nat)
  | [] => none
  | c :: rest =>
    match blockAt (c :: rest) with
    | some len => some (0, len)
    | none => (blockMatch rest).map (fun p => (p.1 + 1, p.2))

/-- Result of parseIndex: the raw block, the keyed sections, and the start
and end offsets of the block within the file content. -/
structure ParsedIdx where
  raw : Str
  sections : List (Str × PSect)
  startIndex : Nat
  endIndex : Nat
deriving DecidableEq, Repr

namespace Mjs

/-- Model of parseIndex (src/index.mjs 89-115): locate the first @ai-index
comment block, then collect its table rows keyed by name. -/
def parseIndex (content : Str) : Option ParsedIdx :=
  match blockMatch content with
  | none => none
  | some (i, len) =>
    let blk := (content.drop i).take len
    some ⟨blk, buildSections (scanRows blk), i, i + len⟩

end Mjs

/-! ## Sections and the serializer -/

/-- A scanner section of index.mjs and the CLI script: named 1-indexed
inclusive line range with optional description (the source field `end` is
called endL here). -/
structure Sect where
  name : Str
  line : Nat
  endL : Nat
  desc : Str
deriving DecidableEq, Repr

/-- Derived size of a section, as the serializer computes it (JS signed
arithmetic). -/
def sizeOfSect (s : Sect) : Int := (s.endL : Int) - (s.line : Int) + 1

/-- A section name that survives the serialize/parse round trip unchanged:
non-empty, trimmed, without pipe or star characters, not a pure digit run,
and without the substrings the row filter of parseIndex rejects. -/
abbrev SerName (nm : Str) : Prop :=
  nm ≠ [] ∧ trimStr nm = nm ∧ (∀ c ∈ nm, c ≠ '|') ∧ (∀ c ∈ nm, c ≠ '*') ∧
  (¬ ∀ c ∈ nm, c.isDigit = true) ∧
  ¬ strHasSub "Section".data nm ∧ ¬ strHasSub "---".data nm

/-- A description that survives the round trip unchanged: trimmed and
without pipe or star characters (it may be empty). -/
abbrev SerDesc (d : Str) : Prop :=
  trimStr d = d ∧ (∀ c ∈ d, c ≠ '|') ∧ (∀ c ∈ d, c ≠ '*')

/-- A section the serialized table represents faithfully. -/
abbrev SerSect (s : Sect) : Prop := SerName s.name ∧ SerDesc s.desc ∧ s.line ≤ s.endL

namespace Mjs

/-- Model of one table row of generateIndex (src/index.mjs 212-219). -/
def genRow (nameW descW : Nat) (s : Sect) : Str :=
  " * | ".data ++ padEndC s.name nameW ++ " | ".data ++
  padStartC (natDigits s.line) 4 ++ " | ".data ++
  padStartC (natDigits s.endL) 4 ++ " | ".data ++
  padStartC (intDigits (sizeOfSect s)) 4 ++ " | ".data ++
  padEndC s.desc descW ++ " |\n".data

/-- The header row of the serialized table (generateIndex, src/index.mjs
209). -/
def genHeader (nameW descW : Nat) : Str :=
  " * | ".data ++ padEndC "Section".data nameW ++
  " | Line | End  | Size | ".data ++ padEndC "Description".data descW ++
  " |\n".data

/-- The separator row of the serialized table (generateIndex, src/index.mjs
210). -/
def genSep (nameW descW : Nat) : Str :=
  " * | ".data ++ List.replicate nameW '-' ++
  " | ---- | ---- | ---- | ".data ++ List.replicate descW '-' ++
  " |\n".data

/-- The column width Math.max(20, ...lengths) of generateIndex. -/
def maxWidth (ls : List Nat) : Nat := ls.foldr max 20

/-- Model of generateIndex (src/index.mjs 202-228): serialize sections into
the @ai-index comment block.  The timestamp (new Date().toISOString()) is
passed in as now. -/
def generateIndex (sections : List Sect) (totalLines : Nat) (now : Str) : Str :=
  let maxNameLen := maxWidth (sections.map (fun s => s.name.length))
  let maxDescLen := maxWidth (sections.map (fun s => s.desc.length))
  let table := genHeader maxNameLen maxDescLen ++ genSep maxNameLen maxDescLen ++
    (sections.map (genRow maxNameLen maxDescLen)).flatten
  "/**\n * @ai-index\n * @generated ".data ++ now ++
  "\n * @total-lines ".data ++ natDigits totalLines ++
  "\n *\n".data ++ table ++ " */".data

end Mjs

/-! ## Language plugin registry (index.mjs LANGUAGE_PLUGINS and the
identical table of the CLI script, which additionally carries the
autoPatterns lists).

A regionStart matcher returns the name capture and the optional description
capture; a sectionMarker matcher returns the name capture. -/

/-- At the end of the tail pattern (.+?)(?:\s*[—\-]\s*(.+))?$ : try the
optional dash-description group on the rest of the line. -/
def sepDescMatch (s : Str) : Option Str :=
  match s.dropWhile wsChar with
  | c :: s2 =>
    if c = '—' ∨ c = '-' then
      match s2.dropWhile wsChar with
      | [] => none
      | d => some d
    else none
  | [] => none

/-- The lazy name split of (.+?)(?:\s*[—\-]\s*(.+))?$ on a non-empty rest:
grow the name from the left until the dash-description group (or the end of
line) matches. -/
def splitNameDescGo (acc : Str) : Str → Str × Option Str
  | [] => (acc, none)
  | c :: rest =>
    match sepDescMatch (c :: rest) with
    | some d => (acc, some d)
    | none => splitNameDescGo (acc ++ [c]) rest

/-- Capture split for (.+?)(?:\s*[—\-]\s*(.+))?$ ; fails on an empty rest. -/
def splitNameDesc : Str → Option (Str × Option Str)
  | [] => none
  | c :: rest => some (splitNameDescGo [c] rest)

/-- Tail matcher for PLUS-quantified whitespace then the name/description
split, as in \s+(.+?)(?:\s*[—\-]\s*(.+))?$ : at least one whitespace
character must follow, and when the rest is whitespace only, backtracking
leaves the final whitespace character as the name capture. -/
def wsPlusNameDesc (s : Str) : Option (Str × Option Str) :=
  match s with
  | c :: _ =>
    if wsChar c then
      match s.dropWhile wsChar with
      | [] => if 2 ≤ s.length then some (s.getLast?.toList, none) else none
      | rest => splitNameDesc rest
    else none
  | [] => none

/-- Tail matcher for STAR-quantified skip then the name/description split,
as in \s*(.+?)... or [:\s]*(.+?)... with the given skip class: when the
rest is all skippable, backtracking leaves the final character as the name. -/
def skipStarNameDesc (p : Char → Bool) (s : Str) : Option (Str × Option Str) :=
  if s = [] then none
  else
    match s.dropWhile p with
    | [] => some (s.getLast?.toList, none)
    | rest => splitNameDesc rest

/-- regionStart of the ts plugin: /^\/\/#region\s+(.+?)(?:\s*[—\-]\s*(.+))?$/ -/
def tsRegionStart (l : Str) : Option (Str × Option Str) :=
  (expectLit "//#region".data l).bind wsPlusNameDesc

/-- regionEnd of the ts plugin: /^\/\/#endregion/ -/
def tsRegionEnd (l : Str) : Bool := ("//#endregion".data).isPrefixOf l

/-- Tail of the SECTION marker after "SECTION:":
\s*(.+?)(?:\s*={3,}\s*)?\s*$ combined as in the pattern
SECTION:\s*(.+?)(?:\s*={3,})?\s*$ — the name grows lazily until the rest of
the line is whitespace, optionally an ={3,} run, and whitespace. -/
def eqTailOk (r : Str) : Bool :=
  match r.dropWhile wsChar with
  | [] => true
  | r1 =>
    decide (3 ≤ (r1.takeWhile (fun c => c = '=')).length) &&
    ((r1.dropWhile (fun c => c = '=')).dropWhile wsChar).isEmpty

/-- Lazy name growth against a tail acceptor (for the SECTION marker). -/
def lazyFrontGo (ok : Str → Bool) (acc : Str) : Str → Option Str
  | [] => if ok [] then some acc else none
  | c :: rest => if ok (c :: rest) then some acc else lazyFrontGo ok (acc ++ [c]) rest

/-- Minimal non-empty front whose complement satisfies the acceptor. -/
def lazyFront (ok : Str → Bool) : Str → Option Str
  | [] => none
  | c :: rest => lazyFrontGo ok [c] rest

/-- Name part of the SECTION marker after the colon: \s* skip (with the
all-whitespace backtracking case), then lazy growth until eqTailOk. -/
def sectionNameTail (s : Str) : Option Str :=
  if s = [] then none
  else
    match s.dropWhile wsChar with
    | [] => some s.getLast?.toList
    | rest => lazyFront eqTailOk rest

/-- Body of the SECTION marker after its comment opener:
\s*(?:={3,}\s*)?SECTION:\s*(.+?)(?:\s*={3,})?\s*$ case-insensitively. -/
def sectionMarkerBody (s1 : Str) : Option Str :=
  let s2 :=
    if 3 ≤ (s1.takeWhile (fun c => c = '=')).length then
      (s1.dropWhile (fun c => c = '=')).dropWhile wsChar
    else s1
  (expectLitCI "SECTION:".data s2).bind sectionNameTail

/-- Leftmost-position search for an unanchored marker. -/
def searchAt (f : Str → Option Str) : Str → Option Str
  | [] => f []
  | c :: rest =>
    match f (c :: rest) with
    | some r => some r
    | none => searchAt f rest

/-- sectionMarker of the ts, csharp and java plugins (unanchored):
/\/\/\s*(?:={3,}\s*)?SECTION:\s*(.+?)(?:\s*={3,})?\s*$/i -/
def tsSectionMarker (l : Str) : Option Str :=
  searchAt
    (fun s =>
      (expectLit "//".data s).bind (fun s1 => sectionMarkerBody (s1.dropWhile wsChar)))
    l

/-- regionStart of the python plugin:
/^#\s*region\s*[:\s]*(.+?)(?:\s*[—\-]\s*(.+))?$/ -/
def pyRegionStart (l : Str) : Option (Str × Option Str) :=
  ((expectLit "#".data l).bind
    (fun s1 => expectLit "region".data (s1.dropWhile wsChar))).bind
    (skipStarNameDesc (fun c => wsChar c || c = ':'))

/-- regionEnd of the python plugin: /^#\s*endregion/ -/
def pyRegionEnd (l : Str) : Bool :=
  match expectLit "#".data l with
  | some s1 => ("endregion".data).isPrefixOf (s1.dropWhile wsChar)
  | none => false

/-- sectionMarker of the python and yaml plugins (anchored):
/^#\s*(?:={3,}\s*)?SECTION:\s*(.+?)(?:\s*={3,})?\s*$/i -/
def pySectionMarker (l : Str) : Option Str :=
  (expectLit "#".data l).bind (fun s1 => sectionMarkerBody (s1.dropWhile wsChar))

/-- regionStart of the rust and go plugins:
/^\/\/\s*region:\s*(.+?)(?:\s*[—\-]\s*(.+))?$/ -/
def rsRegionStart (l : Str) : Option (Str × Option Str) :=
  ((expectLit "//".data l).bind
    (fun s1 => expectLit "region:".data (s1.dropWhile wsChar))).bind
    (skipStarNameDesc wsChar)

/-- regionEnd of the rust and go plugins: /^\/\/\s*endregion/ -/
def rsRegionEnd (l : Str) : Bool :=
  match expectLit "//".data l with
  | some s1 => ("endregion".data).isPrefixOf (s1.dropWhile wsChar)
  | none => false

/-- sectionMarker of the rust and go plugins (anchored):
/^\/\/\s*(?:={3,}\s*)?SECTION:\s*(.+?)(?:\s*={3,})?\s*$/i -/
def rsSectionMarker (l : Str) : Option Str :=
  (expectLit "//".data l).bind (fun s1 => sectionMarkerBody (s1.dropWhile wsChar))

/-- regionStart of the csharp plugin:
/^\s*#region\s+(.+?)(?:\s*[—\-]\s*(.+))?$/ -/
def csRegionStart (l : Str) : Option (Str × Option Str) :=
  (expectLit "#region".data (l.dropWhile wsChar)).bind wsPlusNameDesc

/-- regionEnd of the csharp plugin: /^\s*#endregion/ -/
def csRegionEnd (l : Str) : Bool :=
  ("#endregion".data).isPrefixOf (l.dropWhile wsChar)

/-- regionStart of the java plugin:
/^\/\/\s*region\s*(.+?)(?:\s*[—\-]\s*(.+))?$/ -/
def javaRegionStart (l : Str) : Option (Str × Option Str) :=
  ((expectLit "//".data l).bind
    (fun s1 => expectLit "region".data (s1.dropWhile wsChar))).bind
    (skipStarNameDesc wsChar)

/-- regionStart of the yaml plugin: /^#\s*region:\s*(.+?)(?:\s*[—\-]\s*(.+))?$/ -/
def yamlRegionStart (l : Str) : Option (Str × Option Str) :=
  ((expectLit "#".data l).bind
    (fun s1 => expectLit "region:".data (s1.dropWhile wsChar))).bind
    (skipStarNameDesc wsChar)

/-- sectionMarker of the json plugin: /"__section__(\w+)__"/ — a word run
ending in two underscores before the closing quote; the capture keeps the
whole word run including those underscores only when backtracking allows,
i.e. the capture is the run without its final two underscores. -/
def jsonSectionMarker (l : Str) : Option Str :=
  searchAt
    (fun s =>
      match expectLit "\"__section__".data s with
      | some s1 =>
        let w := s1.takeWhile wordChar
        if 3 ≤ w.length ∧ w.drop (w.length - 2) = "__".data ∧
            (s1.drop w.length).take 1 = "\"".data then
          some (w.take (w.length - 2))
        else none
      | none => none)
    l

/-! ## Auto-detection pattern tests

Boolean models of RegExp.prototype.test for every autoPatterns entry of the
CLI script and every pattern of the MCP server's detectSectionsAuto table. -/

/-- Literal then \s+ : consume the literal and a non-empty whitespace run. -/
def litWsPlus (lit : Str) (s : Str) : Option Str :=
  match expectLit lit s with
  | some (c :: rest) =>
    if wsChar c then some ((c :: rest).dropWhile wsChar) else none
  | _ => none

/-- Optional (?:lit\s+)? group whose follower cannot begin like lit. -/
def optLitWs (lit : Str) (s : Str) : Str :=
  match litWsPlus lit s with
  | some r => r
  | none => s

/-- Test for \w+LIT (with the given follower test) at the front: some split
into a non-empty word-character run followed directly by the literal. -/
def wordThenLit (lit : Str) (after : Str → Bool) (s : Str) : Bool :=
  (List.range (s.length + 1)).any
    (fun i =>
      decide (1 ≤ i) && (s.take i).all wordChar && lit.isPrefixOf (s.drop i) &&
        after (s.drop (i + lit.length)))

/-- Head-character test of a remainder. -/
def headIs (c : Char) (s : Str) : Bool := s.take 1 = [c]

/-- A non-empty word run then the rest. -/
def wordRun1 (s : Str) : Option Str :=
  match s.takeWhile wordChar with
  | [] => none
  | _ => some (s.dropWhile wordChar)

/-- One autoPatterns entry of the CLI script: a pattern test, a target
section name, and the advisory priority (absent on the json entries). -/
structure AutoPat where
  test : Str → Bool
  sectionName : Str
  priority : Option Nat

/-- autoPatterns of the ts plugin (CLI script), in source order. -/
def tsAutoPatterns : List AutoPat :=
  [⟨fun l => (litWsPlus "import".data l).isSome, "imports".data, some 1⟩,
   ⟨fun l => ((litWsPlus "export".data l).bind (litWsPlus "type".data)).isSome,
     "types".data, some 2⟩,
   ⟨fun l =>
      match litWsPlus "interface".data (optLitWs "export".data l) with
      | some r => wordThenLit "State".data (fun _ => true) r
      | none => false,
     "types/state".data, some 3⟩,
   ⟨fun l =>
      match litWsPlus "interface".data (optLitWs "export".data l) with
      | some r => wordThenLit "Actions".data (fun _ => true) r
      | none => false,
     "types/actions".data, some 3⟩,
   ⟨fun l => (litWsPlus "interface".data (optLitWs "export".data l)).isSome,
     "types".data, some 2⟩,
   ⟨fun l => (litWsPlus "type".data (optLitWs "export".data l)).isSome,
     "types".data, some 2⟩,
   ⟨fun l =>
      match (litWsPlus "const".data l).bind (expectLit "initial".data) with
      | some r =>
        match ((r.dropWhile wordChar).dropWhile wsChar) with
        | '=' :: _ => true
        | ':' :: _ => true
        | _ => false
      | none => false,
     "state/initial".data, some 4⟩,
   ⟨fun l =>
      match ((litWsPlus "export".data l).bind (litWsPlus "const".data)).bind
          (expectLit "use".data) with
      | some r =>
        wordThenLit "Store".data (fun r2 => headIs '=' (r2.dropWhile wsChar)) r
      | none => false,
     "store".data, some 5⟩,
   ⟨fun l =>
      (searchAt
        (fun s =>
          match expectLit "create<".data s with
          | some r => if strHasSub ">(".data r then some [] else none
          | none => none)
        l).isSome,
     "store".data, some 5⟩,
   ⟨fun l =>
      match ((litWsPlus "export".data l).bind (litWsPlus "const".data)).bind
          (expectLit "select".data) with
      | some (c :: _) => wordChar c
      | _ => false,
     "selectors".data, some 8⟩,
   ⟨fun l =>
      match ((litWsPlus "export".data l).bind (litWsPlus "function".data)).bind
          (expectLit "use".data) with
      | some (c :: _) => wordChar c
      | _ => false,
     "hooks".data, some 9⟩]

/-- autoPatterns of the python plugin (CLI script). -/
def pyAutoPatterns : List AutoPat :=
  [⟨fun l => (litWsPlus "from".data l).isSome || (litWsPlus "import".data l).isSome,
     "imports".data, some 1⟩,
   ⟨fun l =>
      match (litWsPlus "class".data l).bind wordRun1 with
      | some r => headIs '(' r
      | none => false,
     "classes".data, some 3⟩,
   ⟨fun l =>
      match litWsPlus "class".data l with
      | some r => wordThenLit "Model".data (fun r2 => headIs '(' (r2.dropWhile wsChar)) r
      | none => false,
     "models".data, some 2⟩,
   ⟨fun l => ("@dataclass".data).isPrefixOf l, "dataclasses".data, some 2⟩,
   ⟨fun l =>
      match expectLit "@app.".data l with
      | some r =>
        ("get".data).isPrefixOf r || ("post".data).isPrefixOf r ||
        ("put".data).isPrefixOf r || ("delete".data).isPrefixOf r ||
        ("patch".data).isPrefixOf r
      | none => false,
     "routes".data, some 4⟩,
   ⟨fun l =>
      match expectLit "@router.".data l with
      | some r =>
        ("get".data).isPrefixOf r || ("post".data).isPrefixOf r ||
        ("put".data).isPrefixOf r || ("delete".data).isPrefixOf r ||
        ("patch".data).isPrefixOf r
      | none => false,
     "routes".data, some 4⟩,
   ⟨fun l =>
      match litWsPlus "def".data l with
      | some r => ("test_".data).isPrefixOf r
      | none => false,
     "tests".data, some 5⟩,
   ⟨fun l => ((litWsPlus "async".data l).bind (litWsPlus "def".data)).isSome,
     "async".data, some 3⟩]

/-- autoPatterns of the rust plugin (CLI script). -/
def rsAutoPatterns : List AutoPat :=
  [⟨fun l => (litWsPlus "use".data l).isSome, "imports".data, some 1⟩,
   ⟨fun l => (litWsPlus "mod".data l).isSome, "modules".data, some 2⟩,
   ⟨fun l => ((litWsPlus "pub".data l).bind (litWsPlus "struct".data)).isSome,
     "structs".data, some 3⟩,
   ⟨fun l => ((litWsPlus "pub".data l).bind (litWsPlus "enum".data)).isSome,
     "enums".data, some 3⟩,
   ⟨fun l => (litWsPlus "impl".data l).isSome, "impl".data, some 4⟩,
   ⟨fun l => ((litWsPlus "pub".data l).bind (litWsPlus "fn".data)).isSome,
     "functions".data, some 5⟩,
   ⟨fun l => ("#[test]".data).isPrefixOf l, "tests".data, some 6⟩]

/-- autoPatterns of the go plugin (CLI script). -/
def goAutoPatterns : List AutoPat :=
  [⟨fun l =>
      match expectLit "import".data l with
      | some r => headIs '(' (r.dropWhile wsChar)
      | none => false,
     "imports".data, some 1⟩,
   ⟨fun l =>
      match (litWsPlus "type".data l).bind wordRun1 with
      | some (c :: rest) =>
        wsChar c &&
          (match expectLit "struct".data ((c :: rest).dropWhile wsChar) with
           | some r2 => headIs '\x7b' (r2.dropWhile wsChar)
           | none => false)
      | _ => false,
     "types".data, some 2⟩,
   ⟨fun l =>
      match (litWsPlus "type".data l).bind wordRun1 with
      | some (c :: rest) =>
        wsChar c &&
          (match expectLit "interface".data ((c :: rest).dropWhile wsChar) with
           | some r2 => headIs '\x7b' (r2.dropWhile wsChar)
           | none => false)
      | _ => false,
     "interfaces".data, some 2⟩,
   ⟨fun l =>
      match (litWsPlus "func".data l).bind (expectLit "(".data) with
      | some r =>
        match wordRun1 r with
        | some (c :: rest) =>
          wsChar c &&
            (match (c :: rest).dropWhile wsChar with
             | '*' :: r3 =>
               match wordRun1 ('*' :: r3).tail with
               | some r4 => headIs ')' r4
               | none => false
             | r3 =>
               match wordRun1 r3 with
               | some r4 => headIs ')' r4
               | none => false)
        | _ => false
      | none => false,
     "methods".data, some 3⟩,
   ⟨fun l => ((litWsPlus "func".data l).bind wordRun1).isSome,
     "functions".data, some 4⟩,
   ⟨fun l =>
      match (litWsPlus "func".data l).bind (expectLit "Test".data) with
      | some (c :: _) => wordChar c
      | _ => false,
     "tests".data, some 5⟩]

/-- autoPatterns of the csharp plugin (CLI script). -/
def csAutoPatterns : List AutoPat :=
  [⟨fun l => (litWsPlus "using".data l).isSome, "imports".data, some 1⟩,
   ⟨fun l => (litWsPlus "namespace".data l).isSome, "namespace".data, some 2⟩,
   ⟨fun l => ((litWsPlus "public".data l).bind (litWsPlus "class".data)).isSome,
     "classes".data, some 3⟩,
   ⟨fun l => ((litWsPlus "public".data l).bind (litWsPlus "interface".data)).isSome,
     "interfaces".data, some 3⟩,
   ⟨fun l => ((litWsPlus "public".data l).bind (litWsPlus "enum".data)).isSome,
     "enums".data, some 3⟩,
   ⟨fun l => ("[Test]".data).isPrefixOf l, "tests".data, some 5⟩]

/-- autoPatterns of the java plugin (CLI script). -/
def javaAutoPatterns : List AutoPat :=
  [⟨fun l => (litWsPlus "import".data l).isSome, "imports".data, some 1⟩,
   ⟨fun l => (litWsPlus "package".data l).isSome, "package".data, some 0⟩,
   ⟨fun l => ((litWsPlus "public".data l).bind (litWsPlus "class".data)).isSome,
     "classes".data, some 2⟩,
   ⟨fun l => ((litWsPlus "public".data l).bind (litWsPlus "interface".data)).isSome,
     "interfaces".data, some 2⟩,
   ⟨fun l => ((litWsPlus "public".data l).bind (litWsPlus "enum".data)).isSome,
     "enums".data, some 2⟩,
   ⟨fun l => ("@Test".data).isPrefixOf l, "tests".data, some 5⟩]

/-- Unanchored key-then-open-brace pattern of the json autoPatterns. -/
def jsonKeyPat (key : Str) (l : Str) : Bool :=
  (searchAt
    (fun s =>
      match expectLit ('"' :: key ++ ['"']) s with
      | some r =>
        match r.dropWhile wsChar with
        | ':' :: r2 => if headIs '\x7b' (r2.dropWhile wsChar) then some [] else none
        | _ => none
      | none => none)
    l).isSome

/-- autoPatterns of the json plugin (CLI script); these entries carry no
priority field. -/
def jsonAutoPatterns : List AutoPat :=
  [⟨jsonKeyPat "nodes".data, "nodes".data, none⟩,
   ⟨jsonKeyPat "edges".data, "edges".data, none⟩,
   ⟨jsonKeyPat "config".data, "config".data, none⟩]

/-! ## Registry -/

/-- A language plugin record of LANGUAGE_PLUGINS.  The field list follows
the CLI script's table, whose first six fields coincide with the table in
src/index.mjs (the module's table simply has no autoPatterns, and no
consumer of it reads that field). -/
structure Plugin where
  pname : Str
  extensions : List Str
  indexFormat : Str
  regionStart : Option (Str → Option (Str × Option Str))
  regionEnd : Option (Str → Bool)
  sectionMarker : Option (Str → Option Str)
  autoPatterns : List AutoPat

/-- LANGUAGE_PLUGINS (src/index.mjs 14-71 and the CLI script 469-603). -/
def LANGUAGE_PLUGINS : List Plugin :=
  [⟨"ts".data, [".ts".data, ".tsx".data, ".js".data, ".jsx".data, ".mjs".data, ".cjs".data],
     "jsdoc".data, some tsRegionStart, some tsRegionEnd, some tsSectionMarker,
     tsAutoPatterns⟩,
   ⟨"python".data, [".py".data, ".pyw".data, ".pyi".data],
     "docstring".data, some pyRegionStart, some pyRegionEnd, some pySectionMarker,
     pyAutoPatterns⟩,
   ⟨"rust".data, [".rs".data],
     "doc-comment".data, some rsRegionStart, some rsRegionEnd, some rsSectionMarker,
     rsAutoPatterns⟩,
   ⟨"go".data, [".go".data],
     "block-comment".data, some rsRegionStart, some rsRegionEnd, some rsSectionMarker,
     goAutoPatterns⟩,
   ⟨"csharp".data, [".cs".data],
     "xml-doc".data, some csRegionStart, some csRegionEnd, some tsSectionMarker,
     csAutoPatterns⟩,
   ⟨"java".data, [".java".data],
     "javadoc".data, some javaRegionStart, some rsRegionEnd, some tsSectionMarker,
     javaAutoPatterns⟩,
   ⟨"yaml".data, [".yaml".data, ".yml".data],
     "comment".data, some yamlRegionStart, some pyRegionEnd, some pySectionMarker,
     []⟩,
   ⟨"json".data, [".json".data, ".json5".data, ".jsonc".data],
     "key".data, none, none, some jsonSectionMarker,
     jsonAutoPatterns⟩]

/-- Basename of a path: everything after the last slash. -/
def afterLastSlash (p : Str) : Str :=
  p.foldl (fun acc c => if c = '/' then [] else acc ++ [c]) []

/-- Model of Node path.extname: the basename's suffix from its last dot,
empty when there is no dot or the dot is the first character. -/
def extnameOf (p : Str) : Str :=
  let base := afterLastSlash p
  match ((List.range base.length).filter (fun i => base.get? i = some '.')).getLast? with
  | none => []
  | some 0 => []
  | some i => base.drop i

/-- Model of getLanguagePlugin (src/index.mjs 76-84): look the lowercased
extension of the path up in LANGUAGE_PLUGINS; the first plugin listing it
wins. -/
def getLanguagePlugin (filePath : Str) : Option Plugin :=
  LANGUAGE_PLUGINS.find?
    (fun pl => pl.extensions.contains ((extnameOf filePath).map Char.toLower))

/-! ## Explicit region scanner (findSections, src/index.mjs 120-197; the
CLI script's findExplicitSections is character-identical). -/

/-- The open-section state of the scanner. -/
structure OpenSec where
  name : Str
  desc : Str
  start : Nat
deriving DecidableEq, Repr

namespace Mjs

/-- The line loop of findSections: i is the 1-indexed number of the next
line; an open section is closed at i−1 by a new start marker, at i by an
end marker, and at the last line at end of input. -/
def findSectionsGo (rs : Str → Option (Str × Option Str)) (re : Str → Bool)
    (sm : Str → Option Str) :
    List Str → Nat → Option OpenSec → List Sect → List Sect
  | [], i, op, acc =>
    match op with
    | some o => acc ++ [⟨o.name, o.start, i - 1, o.desc⟩]
    | none => acc
  | l :: rest, i, op, acc =>
    match rs l with
    | some (nm, dsc) =>
      findSectionsGo rs re sm rest (i + 1)
        (some ⟨trimStr nm, (dsc.map trimStr).getD [], i⟩)
        (match op with
         | some o => acc ++ [⟨o.name, o.start, i - 1, o.desc⟩]
         | none => acc)
    | none =>
      if re l then
        match op with
        | some o =>
          findSectionsGo rs re sm rest (i + 1) none (acc ++ [⟨o.name, o.start, i, o.desc⟩])
        | none => findSectionsGo rs re sm rest (i + 1) none acc
      else
        match sm l with
        | some nm =>
          findSectionsGo rs re sm rest (i + 1) (some ⟨trimStr nm, [], i⟩)
            (match op with
             | some o => acc ++ [⟨o.name, o.start, i - 1, o.desc⟩]
             | none => acc)
        | none => findSectionsGo rs re sm rest (i + 1) op acc

/-- Model of findSections (src/index.mjs 120-197).  A null plugin field
falls back to the ts patterns, as in the source's || defaults. -/
def findSections (content : Str) (plugin : Option Plugin) : List Sect :=
  findSectionsGo
    ((plugin.bind (fun p => p.regionStart)).getD tsRegionStart)
    ((plugin.bind (fun p => p.regionEnd)).getD tsRegionEnd)
    ((plugin.bind (fun p => p.sectionMarker)).getD tsSectionMarker)
    (splitLines content) 1 none []

/-- The section-resolution step of indexFile (src/index.mjs 245-249):
explicit sections, else the single whole-file main section. -/
def resolveSections (content : Str) (plugin : Option Plugin) : List Sect :=
  let totalLines := (splitLines content).length
  let sections := findSections content plugin
  if sections.length = 0 then
    [⟨"main".data, 1, totalLines, "Main content".data⟩]
  else sections

end Mjs

/-- Model of the /^#!.*\n/ shebang match: the first line including its
newline, when the content starts with the interpreter directive. -/
def shebangMatch (content : Str) : Option Str :=
  if ("#!".data).isPrefixOf content then
    match content.dropWhile (fun c => c ≠ '\n') with
    | '\n' :: _ => some (content.takeWhile (fun c => c ≠ '\n') ++ ['\n'])
    | _ => none
  else none

/-- Model of insertIndex (CLI script 823-837), also inlined in indexFile of
src/index.mjs 253-265: replace the existing block in place, else insert at
the top after a shebang line. -/
def spliceIndex (content indexBlock : Str) (existing : Option ParsedIdx) : Str :=
  match existing with
  | some idx => content.take idx.startIndex ++ indexBlock ++ content.drop idx.endIndex
  | none =>
    match shebangMatch content with
    | some sb => sb ++ indexBlock ++ "\n\n".data ++ content.drop sb.length
    | none => indexBlock ++ "\n\n".data ++ content

namespace Mjs

/-- The successful result of indexFile of src/index.mjs, together with the
content it writes back. -/
structure MjsOut where
  newContent : Str
  sections : Nat
  totalLines : Nat
  action : Str
deriving DecidableEq, Repr

/-- Model of indexFile (src/index.mjs 233-274).  An unsupported file type
throws, modelled as the error case; the timestamp is passed in as now. -/
def indexFile (filePath content now : Str) : Except Str MjsOut :=
  match getLanguagePlugin filePath with
  | none => .error ("Unsupported file type: ".data ++ filePath)
  | some plugin =>
    let totalLines := (splitLines content).length
    let existingIndex := parseIndex content
    let sections := resolveSections content (some plugin)
    let indexBlock := generateIndex sections totalLines now
    .ok ⟨spliceIndex content indexBlock existingIndex, sections.length, totalLines,
      if existingIndex.isSome then "updated".data else "added".data⟩

end Mjs

/-! ## The CLI script (auto-detection, indexFile, verifyIndex). -/

namespace Script

/-- findExplicitSections of the CLI script (653-737) is character-identical
to findSections of src/index.mjs; this is the same embedding. -/
def findExplicitSections (content : Str) (plugin : Option Plugin) : List Sect :=
  Mjs.findSections content plugin

/-- One entry of the detected list of detectSectionsAuto (CLI script
744-757). -/
structure Detected where
  sectionName : Str
  line : Nat
  priority : Nat
deriving DecidableEq, Repr

/-- First pass of detectSectionsAuto: for each line, the first matching
pattern (if any), with the JS priority || 5 default (which also maps an
explicit 0 to 5). -/
def detectLoop (pats : List AutoPat) : List Str → Nat → List Detected
  | [], _ => []
  | l :: rest, i =>
    (match pats.find? (fun p => p.test l) with
     | some p =>
       [⟨p.sectionName, i, if p.priority.getD 0 = 0 then 5 else p.priority.getD 0⟩]
     | none => []) ++ detectLoop pats rest (i + 1)

/-- Second pass of detectSectionsAuto (CLI script 759-792): group
consecutive detections of the same target name; a still-open section is
closed at the file's last line.  These sections carry no desc field. -/
def groupGo (detected : List Detected) (total : Nat) :
    Nat → Nat → Option (Str × Nat) → List Sect → List Sect
  | 0, _, op, acc =>
    match op with
    | some (nm, st) => acc ++ [⟨nm, st, total, []⟩]
    | none => acc
  | k + 1, i, op, acc =>
    match detected.find? (fun d => d.line = i) with
    | some d =>
      groupGo detected total k (i + 1)
        (match op with
         | some (nm, st) => if nm ≠ d.sectionName then some (d.sectionName, i) else some (nm, st)
         | none => some (d.sectionName, i))
        (match op with
         | some (nm, st) =>
           if nm ≠ d.sectionName then acc ++ [⟨nm, st, i - 1, []⟩] else acc
         | none => acc)
    | none => groupGo detected total k (i + 1) op acc

/-- Model of detectSectionsAuto (CLI script 739-792). -/
def detectSectionsAuto (content : Str) (plugin : Option Plugin) : List Sect :=
  let lines := splitLines content
  let pats := (plugin.map (fun p => p.autoPatterns)).getD []
  groupGo (detectLoop pats lines 1) lines.length lines.length 1 none []

/-- The descMap table of indexFile (CLI script 876-909). -/
def descMap : List (Str × Str) :=
  [("imports".data, "External dependencies".data),
   ("types".data, "Type definitions".data),
   ("config".data, "Configuration".data),
   ("main".data, "Main content".data),
   ("tests".data, "Unit tests".data),
   ("types/state".data, "State interface".data),
   ("types/actions".data, "Action interfaces".data),
   ("state/initial".data, "Initial state".data),
   ("store".data, "State store".data),
   ("selectors".data, "State selectors".data),
   ("hooks".data, "React hooks".data),
   ("debug".data, "Debug utilities".data),
   ("classes".data, "Class definitions".data),
   ("models".data, "Data models".data),
   ("dataclasses".data, "Dataclass definitions".data),
   ("routes".data, "API routes".data),
   ("async".data, "Async functions".data),
   ("modules".data, "Module declarations".data),
   ("structs".data, "Struct definitions".data),
   ("enums".data, "Enum definitions".data),
   ("impl".data, "Implementations".data),
   ("functions".data, "Function definitions".data),
   ("interfaces".data, "Interface definitions".data),
   ("methods".data, "Method definitions".data),
   ("namespace".data, "Namespace declaration".data),
   ("package".data, "Package declaration".data)]

/-- The description-defaulting loop of indexFile (CLI script 911-915). -/
def applyDescMap (sections : List Sect) : List Sect :=
  sections.map
    (fun s =>
      if s.desc.isEmpty then
        ⟨s.name, s.line, s.endL,
          ((descMap.find? (fun p => p.1 = s.name)).map (fun p => p.2)).getD []⟩
      else s)

/-- The result of the CLI script's indexFile. -/
inductive ScriptResult where
  | skipped (reason : Str)
  | success (newContent : Str) (sections : Nat) (totalLines : Nat) (action : Str)
deriving DecidableEq, Repr

/-- Model of indexFile (CLI script 843-935): threshold check; unsupported
extensions are a structured skip; explicit sections, else auto-detected
sections, else the single main section; descriptions defaulted; the block
serialized (generateIndexBlock is character-identical to generateIndex of
src/index.mjs) and spliced in. -/
def indexFile (filePath content now : Str) (minLines : Nat) : ScriptResult :=
  let totalLines := (splitLines content).length
  if minLines ≠ 0 ∧ totalLines < minLines then .skipped "below-threshold".data
  else
    match getLanguagePlugin filePath with
    | none => .skipped "unsupported".data
    | some plugin =>
      let existingIndex := Mjs.parseIndex content
      let sections0 := findExplicitSections content (some plugin)
      let sections1 :=
        if sections0.length = 0 then detectSectionsAuto content (some plugin)
        else sections0
      let sections2 :=
        if sections1.length = 0 then
          [⟨"main".data, 1, totalLines, "Main content".data⟩]
        else sections1
      let sections := applyDescMap sections2
      let indexBlock := Mjs.generateIndex sections totalLines now
      .success (spliceIndex content indexBlock existingIndex) sections.length totalLines
        (if existingIndex.isSome then "Updated".data else "Added".data)

/-- One issue reported by verifyIndex; the message strings of the source
are abstracted into the tagged constructors with their data. -/
inductive VerifyIssue where
  | outOfRange (name : Str)
  | missingFromIndex (name : Str)
  | lineDrift (name : Str) (indexLine : Nat) (actualLine : Nat)
deriving DecidableEq, Repr

/-- The out-of-range pass of verifyIndex (CLI script 950-955). -/
def outOfRangeErrors (stored : List (Str × PSect)) (totalLines : Nat) : List VerifyIssue :=
  stored.foldl
    (fun es p =>
      if totalLines < p.2.line ∨ totalLines < p.2.endL then es ++ [.outOfRange p.1]
      else es)
    []

/-- The explicit-marker comparison pass of verifyIndex (CLI script
957-966): a recomputed section missing from the stored block is flagged,
and one present is flagged exactly when the stored and recomputed start
lines differ by more than 5. -/
def explicitErrors (stored : List (Str × PSect)) (explicit : List Sect) : List VerifyIssue :=
  explicit.foldl
    (fun es e =>
      match lookupSect stored e.name with
      | none => es ++ [.missingFromIndex e.name]
      | some s =>
        if 5 < ((s.line : Int) - (e.line : Int)).natAbs then
          es ++ [.lineDrift e.name s.line e.line]
        else es)
    []

/-- The outcome of verifyIndex: valid is the absence of issues. -/
inductive VerifyOutcome where
  | noIndex
  | checked (errors : List VerifyIssue)
deriving DecidableEq, Repr

/-- Model of verifyIndex (CLI script 937-978). -/
def verifyIndex (filePath content : Str) : VerifyOutcome :=
  match Mjs.parseIndex content with
  | none => .noIndex
  | some idx =>
    .checked
      (outOfRangeErrors idx.sections (splitLines content).length ++
       explicitErrors idx.sections (findExplicitSections content (getLanguagePlugin filePath)))

/-- The valid flag of a verify outcome. -/
def verifyValid : VerifyOutcome → Bool
  | .noIndex => false
  | .checked es => es.isEmpty

/-- Model of removeIndex (CLI script 980-995): splice the block out and
strip the newlines that immediately followed it. -/
def removeIndex (content : Str) : Option Str :=
  match Mjs.parseIndex content with
  | none => none
  | some idx =>
    some (content.take idx.startIndex ++
      (content.drop idx.endIndex).dropWhile (fun c => c = '\n'))

end Script

/-! ## The MCP server (src/mcp-server.mjs). -/

namespace Mcp

/-- Tail matcher for \s+(.+?)$ : at least one whitespace character, then
the lazily grown name reaches the end of the line, so it captures the whole
remainder; when the remainder is whitespace only, backtracking leaves the
final whitespace character as the name. -/
def wsPlusNameOnly (s : Str) : Option (Str × Option Str) :=
  match s with
  | c :: _ =>
    if wsChar c then
      match s.dropWhile wsChar with
      | [] => if 2 ≤ s.length then some (s.getLast?.toList, none) else none
      | rest => some (rest, none)
    else none
  | [] => none

/-- Tail matcher for \s*(.+?)$ . -/
def skipStarNameOnly (s : Str) : Option (Str × Option Str) :=
  if s = [] then none
  else
    match s.dropWhile wsChar with
    | [] => some (s.getLast?.toList, none)
    | rest => some (rest, none)

/-- regionStart of the MCP csharp config: /^\s*#region\s+(.+?)$/ -/
def csRegionStartNoDesc (l : Str) : Option (Str × Option Str) :=
  (expectLit "#region".data (l.dropWhile wsChar)).bind wsPlusNameOnly

/-- regionStart of the MCP java config: /^\/\/\s*region\s*(.+?)$/ -/
def javaRegionStartNoDesc (l : Str) : Option (Str × Option Str) :=
  ((expectLit "//".data l).bind
    (fun s1 => expectLit "region".data (s1.dropWhile wsChar))).bind skipStarNameOnly

/-- regionStart of the MCP yaml config: /^#\s*region:\s*(.+?)$/ -/
def yamlRegionStartNoDesc (l : Str) : Option (Str × Option Str) :=
  ((expectLit "#".data l).bind
    (fun s1 => expectLit "region:".data (s1.dropWhile wsChar))).bind skipStarNameOnly

/-- One language config of LANGUAGE_CONFIG (src/mcp-server.mjs 22-67). -/
structure McpCfg where
  lang : Str
  extensions : List Str
  commentStart : Str
  blockStart : Option Str
  blockEnd : Option Str
  regionStart : Option (Str → Option (Str × Option Str))
  regionEnd : Option (Str → Bool)

/-- LANGUAGE_CONFIG (src/mcp-server.mjs 22-67).  Note the java entry also
lists the .kt and .scala extensions, and csharp, java and yaml use
description-free regionStart patterns. -/
def LANGUAGE_CONFIG : List McpCfg :=
  [⟨"ts".data, [".ts".data, ".tsx".data, ".js".data, ".jsx".data, ".mjs".data, ".cjs".data],
     "//".data, some "/*".data, some "*/".data, some tsRegionStart, some tsRegionEnd⟩,
   ⟨"python".data, [".py".data, ".pyw".data, ".pyi".data],
     "#".data, none, none, some pyRegionStart, some pyRegionEnd⟩,
   ⟨"rust".data, [".rs".data],
     "//".data, none, none, some rsRegionStart, some rsRegionEnd⟩,
   ⟨"go".data, [".go".data],
     "//".data, none, none, some rsRegionStart, some rsRegionEnd⟩,
   ⟨"csharp".data, [".cs".data],
     "//".data, none, none, some csRegionStartNoDesc, some csRegionEnd⟩,
   ⟨"java".data, [".java".data, ".kt".data, ".scala".data],
     "//".data, none, none, some javaRegionStartNoDesc, some rsRegionEnd⟩,
   ⟨"yaml".data, [".yaml".data, ".yml".data],
     "#".data, none, none, some yamlRegionStartNoDesc, some pyRegionEnd⟩]

/-- Model of detectLanguage (src/mcp-server.mjs 69-77). -/
def detectLanguage (filePath : Str) : Option McpCfg :=
  LANGUAGE_CONFIG.find?
    (fun cfg => cfg.extensions.contains ((extnameOf filePath).map Char.toLower))

/-- A section of the MCP server: it carries its size field. -/
structure McpSect where
  name : Str
  desc : Str
  line : Nat
  endL : Nat
  size : Nat
deriving DecidableEq, Repr

/-- One pattern of the detectSectionsAuto table (src/mcp-server.mjs
90-118). -/
structure McpPat where
  test : Str → Bool
  pname : Str
  pdesc : Str

/-- Head whitespace then a non-empty word run (\s+(\w+) tail). -/
def wsPlusWord1 (s : Str) : Bool :=
  match s with
  | c :: _ => wsChar c && ¬ ((s.dropWhile wsChar).takeWhile wordChar).isEmpty
  | [] => false

/-- The ts patterns of detectSectionsAuto (src/mcp-server.mjs 91-97). -/
def mcpTsPatterns : List McpPat :=
  [⟨fun l => (litWsPlus "import".data l).isSome, "imports".data, "Import statements".data⟩,
   ⟨fun l =>
      match litWsPlus "export".data l with
      | some r =>
        (match expectLit "interface".data r with
         | some r2 => wsPlusWord1 r2
         | none =>
           match expectLit "type".data r with
           | some r2 => wsPlusWord1 r2
           | none => false)
      | none => false,
     "types".data, "Type definitions".data⟩,
   ⟨fun l =>
      match ((litWsPlus "export".data l).bind (litWsPlus "const".data)).bind
          (expectLit "use".data) with
      | some (c :: _) => wordChar c
      | _ => false,
     "hooks".data, "React hooks".data⟩,
   ⟨fun l =>
      match litWsPlus "function".data (optLitWs "async".data (optLitWs "export".data l)) with
      | some r => ¬ (r.takeWhile wordChar).isEmpty
      | none => false,
     "functions".data, "Exported functions".data⟩,
   ⟨fun l =>
      match litWsPlus "class".data (optLitWs "export".data l) with
      | some r => ¬ (r.takeWhile wordChar).isEmpty
      | none => false,
     "classes".data, "Class definitions".data⟩]

/-- The python patterns of detectSectionsAuto (src/mcp-server.mjs 98-103). -/
def mcpPyPatterns : List McpPat :=
  [⟨fun l => (litWsPlus "from".data l).isSome || (litWsPlus "import".data l).isSome,
     "imports".data, "Import statements".data⟩,
   ⟨fun l =>
      match litWsPlus "class".data l with
      | some r => ¬ (r.takeWhile wordChar).isEmpty
      | none => false,
     "classes".data, "Class definitions".data⟩,
   ⟨fun l =>
      match litWsPlus "def".data (optLitWs "async".data l) with
      | some r => ¬ (r.takeWhile wordChar).isEmpty
      | none => false,
     "functions".data, "Function definitions".data⟩,
   ⟨fun l =>
      (match expectLit "@app.".data l with
       | some r =>
         ("get".data).isPrefixOf r || ("post".data).isPrefixOf r ||
         ("put".data).isPrefixOf r || ("delete".data).isPrefixOf r
       | none => false) ||
      (match expectLit "@router.".data l with
       | some r =>
         ("get".data).isPrefixOf r || ("post".data).isPrefixOf r ||
         ("put".data).isPrefixOf r || ("delete".data).isPrefixOf r
       | none => false),
     "routes".data, "API routes".data⟩]

/-- The rust patterns of detectSectionsAuto (src/mcp-server.mjs 104-110). -/
def mcpRsPatterns : List McpPat :=
  [⟨fun l => (litWsPlus "use".data l).isSome, "imports".data, "Use statements".data⟩,
   ⟨fun l =>
      match litWsPlus "struct".data (optLitWs "pub".data l) with
      | some r => ¬ (r.takeWhile wordChar).isEmpty
      | none => false,
     "structs".data, "Struct definitions".data⟩,
   ⟨fun l =>
      match litWsPlus "enum".data (optLitWs "pub".data l) with
      | some r => ¬ (r.takeWhile wordChar).isEmpty
      | none => false,
     "enums".data, "Enum definitions".data⟩,
   ⟨fun l => (litWsPlus "impl".data l).isSome, "impl".data, "Implementations".data⟩,
   ⟨fun l =>
      match litWsPlus "fn".data (optLitWs "async".data (optLitWs "pub".data l)) with
      | some r => ¬ (r.takeWhile wordChar).isEmpty
      | none => false,
     "functions".data, "Functions".data⟩]

/-- The go patterns of detectSectionsAuto (src/mcp-server.mjs 111-117). -/
def mcpGoPatterns : List McpPat :=
  [⟨fun l =>
      match expectLit "import".data l with
      | some r => headIs '(' (r.dropWhile wsChar)
      | none => false,
     "imports".data, "Import block".data⟩,
   ⟨fun l =>
      match (litWsPlus "type".data l).bind wordRun1 with
      | some (c :: rest) =>
        wsChar c && ("struct".data).isPrefixOf ((c :: rest).dropWhile wsChar)
      | _ => false,
     "types".data, "Struct types".data⟩,
   ⟨fun l =>
      match (litWsPlus "type".data l).bind wordRun1 with
      | some (c :: rest) =>
        wsChar c && ("interface".data).isPrefixOf ((c :: rest).dropWhile wsChar)
      | _ => false,
     "interfaces".data, "Interface types".data⟩,
   ⟨fun l =>
      match litWsPlus "func".data l with
      | some r => headIs '(' r
      | none => false,
     "methods".data, "Methods".data⟩,
   ⟨fun l => ((litWsPlus "func".data l).bind wordRun1).isSome,
     "functions".data, "Functions".data⟩]

/-- The patterns table lookup patterns[langConfig?.lang] || [] of
detectSectionsAuto (src/mcp-server.mjs 120). -/
def mcpPatternsFor : Option McpCfg → List McpPat
  | some cfg =>
    if cfg.lang = "ts".data then mcpTsPatterns
    else if cfg.lang = "python".data then mcpPyPatterns
    else if cfg.lang = "rust".data then mcpRsPatterns
    else if cfg.lang = "go".data then mcpGoPatterns
    else []
  | none => []

/-- The line loop of detectSectionsAuto (src/mcp-server.mjs 124-159): i is
the 1-indexed number of the current line.  A section closed by a
different-name match ends at the previous line; the still-open section at
end of input is pushed as it stands, its end being the last line whose
pattern matched. -/
def autoGo (pats : List McpPat) : List Str → Nat → Option McpSect → List McpSect → List McpSect
  | [], _, op, acc =>
    match op with
    | some o => acc ++ [o]
    | none => acc
  | l :: rest, i, op, acc =>
    match pats.find? (fun p => p.test l) with
    | some p =>
      match op with
      | some o =>
        if o.name ≠ p.pname then
          autoGo pats rest (i + 1) (some ⟨p.pname, p.pdesc, i, i, 1⟩)
            (acc ++ [⟨o.name, o.desc, o.line, i - 1, (i - 1) - o.line + 1⟩])
        else
          autoGo pats rest (i + 1) (some ⟨o.name, o.desc, o.line, i, i - o.line + 1⟩) acc
      | none => autoGo pats rest (i + 1) (some ⟨p.pname, p.pdesc, i, i, 1⟩) acc
    | none => autoGo pats rest (i + 1) op acc

/-- Model of detectSectionsAuto (src/mcp-server.mjs 86-160). -/
def detectSectionsAuto (lines : List Str) (cfg : Option McpCfg) : List McpSect :=
  autoGo (mcpPatternsFor cfg) lines 1 none []

/-- The line loop of detectSectionsExplicit (src/mcp-server.mjs 169-200):
region starts close the open section at the previous line, region ends
close it at the current line, and a still-open section is closed at the
file's last line (i − 1 at the end of the loop). -/
def explicitGo (rs : Option (Str → Option (Str × Option Str))) (re : Option (Str → Bool)) :
    List Str → Nat → Option McpSect → List McpSect → List McpSect
  | [], i, op, acc =>
    match op with
    | some o => acc ++ [⟨o.name, o.desc, o.line, i - 1, (i - 1) - o.line + 1⟩]
    | none => acc
  | l :: rest, i, op, acc =>
    match rs.bind (fun f => f l) with
    | some (nm, dsc) =>
      explicitGo rs re rest (i + 1)
        (some ⟨trimStr nm, (dsc.map trimStr).getD [], i, i, 1⟩)
        (match op with
         | some o => acc ++ [⟨o.name, o.desc, o.line, i - 1, (i - 1) - o.line + 1⟩]
         | none => acc)
    | none =>
      if (re.map (fun g => g l)).getD false then
        match op with
        | some o =>
          explicitGo rs re rest (i + 1) none
            (acc ++ [⟨o.name, o.desc, o.line, i, i - o.line + 1⟩])
        | none => explicitGo rs re rest (i + 1) none acc
      else explicitGo rs re rest (i + 1) op acc

/-- Model of detectSectionsExplicit (src/mcp-server.mjs 165-209). -/
def detectSectionsExplicit (lines : List Str) (cfg : Option McpCfg) : List McpSect :=
  explicitGo (cfg.bind (fun c => c.regionStart)) (cfg.bind (fun c => c.regionEnd)) lines 1 none []

/-- The section-resolution chain of generateIndex (src/mcp-server.mjs
219-236): explicit regions first, else auto-detection, else the single
whole-file main section. -/
def generateIndexCore (lines : List Str) (cfg : Option McpCfg) : List McpSect :=
  let s1 := detectSectionsExplicit lines cfg
  let s2 := if s1.length = 0 then detectSectionsAuto lines cfg else s1
  if s2.length = 0 then
    [⟨"main".data, "Main content".data, 1, lines.length, lines.length⟩]
  else s2

/-- The resolved index of generateIndex (src/mcp-server.mjs 238-244). -/
structure McpIndex where
  file : Str
  path : Str
  language : Str
  totalLines : Nat
  sections : List McpSect
deriving DecidableEq, Repr

/-- Model of generateIndex (src/mcp-server.mjs 214-245). -/
def generateIndex (filePath content : Str) : McpIndex :=
  let lines := splitLines content
  let cfg := detectLanguage filePath
  ⟨afterLastSlash filePath, filePath, ((cfg.map (fun c => c.lang)).getD "unknown".data),
    lines.length, generateIndexCore lines cfg⟩

/-- The result of readSection: the error payload carries the message and
the available section names. -/
inductive ReadResult where
  | sectionErr (error : Str) (availableSections : List Str)
  | ok (sectionName : Str) (lineStart lineEnd : Nat) (content : Str)
deriving DecidableEq, Repr

/-- Model of readSection (src/mcp-server.mjs 250-271): resolve the index,
find the section by name; an unknown name yields the error payload with
every available section name, a known one yields the line range and the
joined slice lines[line−1 .. end). -/
def readSection (filePath content sectionName : Str) : ReadResult :=
  let lines := splitLines content
  let index := generateIndex filePath content
  match index.sections.find? (fun s => s.name = sectionName) with
  | none =>
    .sectionErr ("Section \"".data ++ sectionName ++ "\" not found".data)
      (index.sections.map (fun s => s.name))
  | some s =>
    .ok s.name s.line s.endL
      (joinLines ((lines.drop (s.line - 1)).take (s.endL - (s.line - 1))))

end Mcp

/-! ## Theorems.  First, library lemmas about the scanning primitives. -/

theorem dropWhile_length_le (p : Char → Bool) (l : Str) :
    (l.dropWhile p).length ≤ l.length := by
  induction l with
  | nil => simp
  | cons c t ih =>
    by_cases hc : p c
    · simp only [List.dropWhile_cons, hc, if_true]
      simp
      omega
    · simp [List.dropWhile_cons, hc]

theorem takeWhile_append_all {p : Char → Bool} {l : Str} (r : Str)
    (h : ∀ c ∈ l, p c) : (l ++ r).takeWhile p = l ++ r.takeWhile p := by
  induction l with
  | nil => simp
  | cons c t ih =>
    have hc : p c := h c (by simp)
    simp only [List.cons_append, List.takeWhile_cons, hc, if_true]
    rw [ih (fun x hx => h x (by simp [hx]))]

theorem dropWhile_append_all {p : Char → Bool} {l : Str} (r : Str)
    (h : ∀ c ∈ l, p c) : (l ++ r).dropWhile p = r.dropWhile p := by
  induction l with
  | nil => simp
  | cons c t ih =>
    have hc : p c := h c (by simp)
    simp only [List.cons_append, List.dropWhile_cons, hc, if_true]
    exact ih (fun x hx => h x (by simp [hx]))

theorem dropWhile_eq_self_head {p : Char → Bool} {c : Char} {t : Str}
    (h : (c :: t).dropWhile p = c :: t) : p c = false := by
  by_contra hc
  simp only [Bool.not_eq_false] at hc
  rw [List.dropWhile_cons, if_pos hc] at h
  have h1 := congrArg List.length h
  have h2 := dropWhile_length_le p t
  simp at h1
  omega

theorem dropWhile_eq_cons_head {p : Char → Bool} {l t : Str} {c : Char}
    (h : l.dropWhile p = c :: t) : p c = false := by
  induction l with
  | nil => simp at h
  | cons a b ih =>
    rw [List.dropWhile_cons] at h
    by_cases ha : p a
    · rw [if_pos ha] at h; exact ih h
    · rw [if_neg ha] at h
      cases h
      simpa using ha

theorem dropWhile_cons_of_neg {p : Char → Bool} {c : Char} (t : Str)
    (h : p c = false) : (c :: t).dropWhile p = c :: t := by
  simp [List.dropWhile_cons, h]

theorem dropWhile_append_of_ne_nil {p : Char → Bool} {a : Str} (b : Str)
    (h : a.dropWhile p ≠ []) : (a ++ b).dropWhile p = a.dropWhile p ++ b := by
  induction a with
  | nil => simp at h
  | cons c t ih =>
    by_cases hc : p c
    · simp only [List.cons_append, List.dropWhile_cons, hc, if_true] at h ⊢
      exact ih h
    · simp [List.dropWhile_cons, hc]

theorem takeWhile_nil_of_head {p : Char → Bool} {c : Char} (t : Str)
    (h : p c = false) : (c :: t).takeWhile p = [] := by
  simp [List.takeWhile_cons, h]

theorem dropWhile_eq_self_of_length {p : Char → Bool} :
    ∀ {l : Str}, (l.dropWhile p).length = l.length → l.dropWhile p = l := by
  intro l
  induction l with
  | nil => simp
  | cons c t ih =>
    intro h
    by_cases hc : p c
    · exfalso
      rw [List.dropWhile_cons, if_pos hc] at h
      have := dropWhile_length_le p t
      simp at h
      omega
    · simp [List.dropWhile_cons, hc]

theorem trim_drops (s : Str) (h : trimStr s = s) :
    s.dropWhile wsChar = s ∧ s.reverse.dropWhile wsChar = s.reverse := by
  have h1 : (s.dropWhile wsChar).length ≤ s.length := dropWhile_length_le _ _
  have h2 : (((s.dropWhile wsChar).reverse.dropWhile wsChar)).length ≤
      (s.dropWhile wsChar).length := by
    have := dropWhile_length_le wsChar (s.dropWhile wsChar).reverse
    simpa using this
  have hlen : (trimStr s).length = s.length := by rw [h]
  have hlen2 : (trimStr s).length =
      ((s.dropWhile wsChar).reverse.dropWhile wsChar).length := by
    simp [trimStr]
  have hd : s.dropWhile wsChar = s := by
    apply dropWhile_eq_self_of_length
    omega
  refine ⟨hd, ?_⟩
  apply dropWhile_eq_self_of_length
  rw [hd] at hlen2
  simp only [List.length_reverse]
  omega

theorem ws_of_mem_replicate {c : Char} {n : Nat} (h : c ∈ List.replicate n ' ') :
    wsChar c = true := by
  rw [List.eq_of_mem_replicate h]
  decide

theorem trim_pad (nm : Str) (a b : Nat) (h : trimStr nm = nm) (hne : nm ≠ []) :
    trimStr (List.replicate a ' ' ++ (nm ++ List.replicate b ' ')) = nm := by
  obtain ⟨hd, hr⟩ := trim_drops nm h
  obtain ⟨n0, ntl, rfl⟩ : ∃ n0 ntl, nm = n0 :: ntl := by
    cases nm with
    | nil => exact absurd rfl hne
    | cons x y => exact ⟨x, y, rfl⟩
  have hn0 : wsChar n0 = false := dropWhile_eq_self_head hd
  unfold trimStr
  rw [dropWhile_append_all _ (fun c hc => ws_of_mem_replicate hc)]
  rw [show (n0 :: ntl) ++ List.replicate b ' ' = n0 :: (ntl ++ List.replicate b ' ') by simp]
  rw [dropWhile_cons_of_neg _ hn0]
  rw [show (n0 :: (ntl ++ List.replicate b ' ')).reverse =
    (List.replicate b ' ').reverse ++ (n0 :: ntl).reverse by simp]
  rw [dropWhile_append_all _
    (fun c hc => ws_of_mem_replicate (by simpa using hc))]
  rw [hr]
  simp

theorem digitChar_toNat (n : Nat) (h : n < 10) : (digitChar n).toNat = 48 + n := by
  interval_cases n <;> decide

theorem digitsToNat_append (a b : Str) :
    digitsToNat (a ++ b) = b.foldl (fun x c => x * 10 + (c.toNat - 48)) (digitsToNat a) := by
  simp [digitsToNat, List.foldl_append]

theorem natDigitsAux_correct : ∀ fuel n, n < fuel → digitsToNat (natDigitsAux fuel n) = n := by
  intro fuel
  induction fuel with
  | zero => intro n h; omega
  | succ k ih =>
    intro n h
    simp only [natDigitsAux]
    by_cases hn : n < 10
    · simp only [if_pos hn, digitsToNat, List.foldl]
      rw [digitChar_toNat n hn]
      omega
    · simp only [if_neg hn]
      rw [digitsToNat_append]
      rw [ih _ (by omega)]
      simp only [List.foldl]
      rw [digitChar_toNat _ (Nat.mod_lt n (by norm_num))]
      omega

theorem digitsToNat_natDigits (n : Nat) : digitsToNat (natDigits n) = n :=
  natDigitsAux_correct _ _ (Nat.lt_succ_self n)

theorem digitChar_isDigit (n : Nat) (h : n < 10) : (digitChar n).isDigit = true := by
  interval_cases n <;> decide

theorem natDigitsAux_all_digit : ∀ fuel n, ∀ c ∈ natDigitsAux fuel n, c.isDigit = true := by
  intro fuel
  induction fuel with
  | zero => intro n c hc; simp [natDigitsAux] at hc
  | succ k ih =>
    intro n c hc
    simp only [natDigitsAux] at hc
    by_cases hn : n < 10
    · rw [if_pos hn] at hc
      simp at hc
      rw [hc]
      exact digitChar_isDigit n hn
    · rw [if_neg hn] at hc
      simp at hc
      rcases hc with hc | hc
      · exact ih _ _ hc
      · rw [hc]
        exact digitChar_isDigit _ (Nat.mod_lt n (by norm_num))

theorem natDigits_all_digit (n : Nat) : ∀ c ∈ natDigits n, c.isDigit = true :=
  natDigitsAux_all_digit _ _

theorem natDigits_ne_nil (n : Nat) : natDigits n ≠ [] := by
  unfold natDigits natDigitsAux
  by_cases hn : n < 10 <;> simp [hn]

theorem ws_not_digit {c : Char} (h : wsChar c = true) : c.isDigit = false := by
  unfold wsChar at h
  simp only [Bool.or_eq_true, decide_eq_true_eq] at h
  rcases h with ((((h | h) | h) | h) | h) | h <;> subst h <;> decide

theorem isDigit_not_ws {c : Char} (h : c.isDigit = true) : wsChar c = false := by
  by_cases hw : wsChar c
  · rw [ws_not_digit hw] at h; cases h
  · simpa using hw

theorem isDigit_ne {c d : Char} (h : c.isDigit = true) (hd : d.isDigit = false) : c ≠ d := by
  intro e
  rw [e, hd] at h
  cases h

/-! Lemmas about the row-regex primitives. -/

theorem cellSplit_append (c r : Str) (h : ∀ x ∈ c, x ≠ '|') :
    cellSplit (c ++ '|' :: r) = some (c, r) := by
  unfold cellSplit
  rw [takeWhile_append_all _ (by intro x hx; simp [h x hx])]
  rw [dropWhile_append_all _ (by intro x hx; simp [h x hx])]
  simp [List.takeWhile_cons, List.dropWhile_cons]

theorem cellSplit_none (s : Str) (h : ∀ x ∈ s, x ≠ '|') : cellSplit s = none := by
  unfold cellSplit
  have hd : s.dropWhile (fun x => x ≠ '|') = [] := by
    rw [List.dropWhile_eq_nil_iff]
    intro x hx
    simp [h x hx]
  rw [hd]

theorem cellSplit_length {s c r : Str} (h : cellSplit s = some (c, r)) :
    r.length < s.length := by
  unfold cellSplit at h
  split at h
  · rename_i r2 heq
    cases h
    have h1 : (s.dropWhile (fun x => x ≠ '|')).length ≤ s.length := dropWhile_length_le _ _
    rw [heq] at h1
    simp at h1
    omega
  · cases h

theorem parseNumCell_length {s : Str} {n : Nat} {r : Str}
    (h : parseNumCell s = some (n, r)) : r.length < s.length := by
  unfold parseNumCell at h
  split at h
  · cases h
  · split at h
    · rename_i heq
      cases h
      have h1 := dropWhile_length_le wsChar s
      have h2 := dropWhile_length_le Char.isDigit (s.dropWhile wsChar)
      have h3 := dropWhile_length_le wsChar ((s.dropWhile wsChar).dropWhile Char.isDigit)
      rw [heq] at h3
      simp at h3
      omega
    · cases h

theorem rowMatch_not_pipe {c : Char} {s1 : Str} (h : c ≠ '|') :
    rowMatch (c :: s1) = none := by
  rw [rowMatch.eq_def]
  split
  · rename_i heq
    exfalso
    rw [List.cons.injEq] at heq
    exact h heq.1
  · rfl

theorem rowMatch_length {s : Str} {rd : RowData} {rem : Str}
    (h : rowMatch s = some (rd, rem)) : rem.length < s.length := by
  rcases s with _ | ⟨c, s1⟩
  · simp [rowMatch] at h
  · by_cases hc : c = '|'
    · subst hc
      rw [show rowMatch ('|' :: s1) = (match cellSplit s1 with
        | none => none
        | some (c1, s2) =>
          match nameCapture c1 with
          | none => none
          | some nm =>
            match parseNumCell s2 with
            | none => none
            | some (ln, s3) =>
              match parseNumCell s3 with
              | none => none
              | some (en, s4) =>
                match parseNumCell s4 with
                | some (sz, s5) =>
                  match cellSplit s5 with
                  | some (c5, s6) =>
                    some (⟨nm, ln, en, some sz, some (descCapture c5)⟩, s6)
                  | none => some (⟨nm, ln, en, some sz, none⟩, s5)
                | none =>
                  match cellSplit s4 with
                  | some (c4, s5) =>
                    some (⟨nm, ln, en, none, some (descCapture c4)⟩, s5)
                  | none => some (⟨nm, ln, en, none, none⟩, s4)) from rfl] at h
      split at h
      · cases h
      · rename_i c1 s2 hcell
        have l1 := cellSplit_length hcell
        split at h
        · cases h
        · split at h
          · cases h
          · rename_i ln s3 hnum1
            have l2 := parseNumCell_length hnum1
            split at h
            · cases h
            · rename_i en s4 hnum2
              have l3 := parseNumCell_length hnum2
              split at h
              · rename_i sz s5 hnum3
                have l4 := parseNumCell_length hnum3
                split at h
                · rename_i c5 s6 hcell2
                  have l5 := cellSplit_length hcell2
                  cases h
                  simp
                  omega
                · cases h
                  simp
                  omega
              · split at h
                · rename_i c4 s5 hcell2
                  have l5 := cellSplit_length hcell2
                  cases h
                  simp
                  omega
                · cases h
                  simp
                  omega
    · rw [rowMatch_not_pipe hc] at h
      cases h

/-! The matchAll scan: fuel adequacy and step lemmas. -/

theorem scanRowsAux_nil : ∀ k, scanRowsAux k [] = [] := by
  intro k
  cases k <;> rfl

theorem scanRowsAux_irrel : ∀ k1 : Nat, ∀ k2 : Nat, ∀ s : Str,
    s.length ≤ k1 → s.length ≤ k2 → scanRowsAux k1 s = scanRowsAux k2 s := by
  intro k1
  induction k1 with
  | zero =>
    intro k2 s h1 _
    have : s = [] := by
      cases s
      · rfl
      · simp at h1
    subst this
    rw [scanRowsAux_nil, scanRowsAux_nil]
  | succ k ih =>
    intro k2 s h1 h2
    rcases s with _ | ⟨c, rest⟩
    · rw [scanRowsAux_nil, scanRowsAux_nil]
    · rcases k2 with _ | m
      · simp at h2
      · simp only [scanRowsAux]
        by_cases hc : c = '|'
        · rw [if_pos hc, if_pos hc]
          rcases hm : rowMatch (c :: rest) with _ | ⟨rd, rem⟩
          · simp only [hm]
            exact ih m rest (by simp at h1; omega) (by simp at h2; omega)
          · have := rowMatch_length hm
            simp only [List.length_cons] at h1 h2 this
            simp only [hm]
            rw [ih m rem (by omega) (by omega)]
        · rw [if_neg hc, if_neg hc]
          exact ih m rest (by simp at h1; omega) (by simp at h2; omega)

theorem scanRows_cons_nonpipe {c : Char} (s : Str) (h : c ≠ '|') :
    scanRows (c :: s) = scanRows s := by
  simp only [scanRows, List.length_cons, scanRowsAux, if_neg h]

theorem scanRows_cons_fail {s : Str} (h : rowMatch ('|' :: s) = none) :
    scanRows ('|' :: s) = scanRows s := by
  simp [scanRows, scanRowsAux, h]

theorem scanRows_cons_match {s : Str} {r : RowData} {rem : Str}
    (h : rowMatch ('|' :: s) = some (r, rem)) :
    scanRows ('|' :: s) = r :: scanRows rem := by
  have hl := rowMatch_length h
  simp only [List.length_cons] at hl
  simp only [scanRows, List.length_cons, scanRowsAux, if_pos rfl, h]
  rw [scanRowsAux_irrel s.length rem.length rem (by omega) (by omega)]
  simp

theorem scanRows_skip : ∀ pre s : Str, (∀ c ∈ pre, c ≠ '|') →
    scanRows (pre ++ s) = scanRows s := by
  intro pre
  induction pre with
  | nil => simp
  | cons c t ih =>
    intro s h
    rw [List.cons_append, scanRows_cons_nonpipe _ (h c (by simp))]
    exact ih s (fun x hx => h x (by simp [hx]))

/-! Value and failure lemmas for the numeric-cell matcher. -/

theorem parseNumCell_ws_skip (w s : Str) (hw : ∀ c ∈ w, wsChar c) :
    parseNumCell (w ++ s) = parseNumCell s := by
  unfold parseNumCell
  rw [dropWhile_append_all _ hw]

theorem parseNumCell_head_bad {c : Char} (s : Str) (h1 : wsChar c = false)
    (h2 : c.isDigit = false) : parseNumCell (c :: s) = none := by
  unfold parseNumCell
  rw [dropWhile_cons_of_neg _ h1, takeWhile_nil_of_head _ h2]
  simp

theorem parseNumCell_exact (ds w2 r : Str) (hne : ds ≠ [])
    (hds : ∀ c ∈ ds, c.isDigit = true) (hw2 : ∀ c ∈ w2, wsChar c = true) :
    parseNumCell (ds ++ w2 ++ '|' :: r) = some (digitsToNat ds, r) := by
  obtain ⟨d0, dtl, rfl⟩ : ∃ d0 dtl, ds = d0 :: dtl := by
    cases ds with
    | nil => exact absurd rfl hne
    | cons x y => exact ⟨x, y, rfl⟩
  have hd0 : (d0 :: dtl ++ (w2 ++ '|' :: r)).dropWhile wsChar = d0 :: dtl ++ (w2 ++ '|' :: r) := by
    apply dropWhile_cons_of_neg
    exact isDigit_not_ws (hds d0 (by simp))
  unfold parseNumCell
  simp only [List.append_assoc, List.cons_append] at hd0 ⊢
  rw [hd0]
  have htw : ((d0 :: dtl) ++ (w2 ++ '|' :: r)).takeWhile Char.isDigit = d0 :: dtl := by
    rw [takeWhile_append_all _ hds]
    have : (w2 ++ '|' :: r).takeWhile Char.isDigit = [] := by
      cases w2 with
      | nil => exact takeWhile_nil_of_head _ (by decide)
      | cons x t =>
        exact takeWhile_nil_of_head _ (ws_not_digit (hw2 x (by simp)))
    rw [this, List.append_nil]
  have hdw : ((d0 :: dtl) ++ (w2 ++ '|' :: r)).dropWhile Char.isDigit = w2 ++ '|' :: r := by
    rw [dropWhile_append_all _ hds]
    cases w2 with
    | nil => exact dropWhile_cons_of_neg _ (by decide)
    | cons x t => exact dropWhile_cons_of_neg _ (ws_not_digit (hw2 x (by simp)))
  simp only [List.cons_append] at htw hdw
  rw [htw, hdw]
  rw [dropWhile_append_all _ hw2, dropWhile_cons_of_neg _ (by decide)]
  simp

theorem parseNumCell_num_cell (a : Nat) (n : Nat) (b : Nat) (r : Str) :
    parseNumCell (List.replicate a ' ' ++ (natDigits n ++ (List.replicate b ' ' ++ '|' :: r))) =
      some (n, r) := by
  rw [parseNumCell_ws_skip _ _ (fun c hc => ws_of_mem_replicate hc)]
  rw [show natDigits n ++ (List.replicate b ' ' ++ '|' :: r) =
    natDigits n ++ List.replicate b ' ' ++ '|' :: r by simp]
  rw [parseNumCell_exact _ _ _ (natDigits_ne_nil n) (natDigits_all_digit n)
    (fun c hc => ws_of_mem_replicate hc)]
  rw [digitsToNat_natDigits]

theorem mem_of_dropWhile {p : Char → Bool} {x : Char} :
    ∀ {l : Str}, x ∈ l.dropWhile p → x ∈ l := by
  intro l
  induction l with
  | nil => simp
  | cons c t ih =>
    intro h
    rw [List.dropWhile_cons] at h
    by_cases hc : p c
    · rw [if_pos hc] at h
      exact List.mem_cons_of_mem _ (ih h)
    · rw [if_neg hc] at h
      exact h

/-- The name cell of a data row is not numeric when the name has a
non-digit character: the mixed-content failure of the numeric matcher. -/
theorem parseNumCell_mixed (nm X : Str) (hne : nm ≠ [])
    (htrim : trimStr nm = nm) (hp : ∀ c ∈ nm, c ≠ '|')
    (hnd : ¬ ∀ c ∈ nm, c.isDigit = true) :
    parseNumCell (nm ++ X) = none := by
  obtain ⟨hd, hr⟩ := trim_drops nm htrim
  obtain ⟨n0, ntl, hnm⟩ : ∃ n0 ntl, nm = n0 :: ntl := by
    cases nm with
    | nil => exact absurd rfl hne
    | cons x y => exact ⟨x, y, rfl⟩
  have hn0 : wsChar n0 = false := dropWhile_eq_self_head (hnm ▸ hd)
  have hnmr : nm.dropWhile Char.isDigit ≠ [] := by
    intro hz
    rw [List.dropWhile_eq_nil_iff] at hz
    exact hnd hz
  have hzz : (nm.dropWhile Char.isDigit).dropWhile wsChar ≠ [] := by
    intro hz
    rw [List.dropWhile_eq_nil_iff] at hz
    obtain ⟨r0, rtl, hrev⟩ : ∃ r0 rtl, (nm.dropWhile Char.isDigit).reverse = r0 :: rtl := by
      cases hc : (nm.dropWhile Char.isDigit).reverse with
      | nil => exact absurd (by simpa using hc) hnmr
      | cons x y => exact ⟨x, y, rfl⟩
    have hrw : wsChar r0 = true := by
      apply hz
      have : r0 ∈ (nm.dropWhile Char.isDigit).reverse := by rw [hrev]; simp
      simpa using this
    have hsplit : nm.reverse = r0 :: (rtl ++ (nm.takeWhile Char.isDigit).reverse) := by
      conv_lhs => rw [← List.takeWhile_append_dropWhile (p := Char.isDigit) (l := nm)]
      rw [List.reverse_append, hrev]
      simp
    have := dropWhile_eq_self_head (hsplit ▸ hr)
    rw [hrw] at this
    cases this
  obtain ⟨z, Y, hzy⟩ : ∃ z Y, (nm.dropWhile Char.isDigit).dropWhile wsChar = z :: Y := by
    cases hc : (nm.dropWhile Char.isDigit).dropWhile wsChar with
    | nil => exact absurd hc hzz
    | cons x y => exact ⟨x, y, rfl⟩
  have hzmem : z ∈ nm := mem_of_dropWhile (mem_of_dropWhile (by rw [hzy]; simp))
  have hzpipe : z ≠ '|' := hp z hzmem
  unfold parseNumCell
  have hd1 : (nm ++ X).dropWhile wsChar = nm ++ X := by
    rw [hnm, List.cons_append]
    exact dropWhile_cons_of_neg _ hn0
  rw [hd1]
  have hd2 : (nm ++ X).dropWhile Char.isDigit = nm.dropWhile Char.isDigit ++ X :=
    dropWhile_append_of_ne_nil X hnmr
  have hd3 : (nm.dropWhile Char.isDigit ++ X).dropWhile wsChar = z :: (Y ++ X) := by
    rw [dropWhile_append_of_ne_nil X (by rw [hzy]; simp), hzy]
    simp
  rw [hd2, hd3]
  split
  · rfl
  · split
    · rename_i heq
      exfalso
      rw [List.cons.injEq] at heq
      exact hzpipe heq.1
    · rfl

theorem parseNumCell_ws_cons {c : Char} (s : Str) (h : wsChar c = true) :
    parseNumCell (c :: s) = parseNumCell s :=
  parseNumCell_ws_skip [c] s (by simpa using h)

theorem mem_padEndC {c : Char} {s : Str} {n : Nat} (h : c ∈ padEndC s n) :
    c ∈ s ∨ c = ' ' := by
  unfold padEndC at h
  rcases List.mem_append.1 h with h | h
  · exact Or.inl h
  · exact Or.inr (List.eq_of_mem_replicate h)

theorem trimStr_replicate (n : Nat) : trimStr (List.replicate n ' ') = [] := by
  unfold trimStr
  have h1 : (List.replicate n ' ').dropWhile wsChar = [] :=
    List.dropWhile_eq_nil_iff.2 (fun x hx => ws_of_mem_replicate hx)
  rw [h1]
  simp

theorem nameCapture_pad (nm : Str) (a b : Nat) (h : trimStr nm = nm) (hne : nm ≠ []) :
    nameCapture (List.replicate a ' ' ++ (nm ++ List.replicate b ' ')) = some nm := by
  unfold nameCapture
  have ht : trimStr (List.replicate a ' ' ++ (nm ++ List.replicate b ' ')) = nm :=
    trim_pad nm a b h hne
  rw [ht]
  have harg : List.replicate a ' ' ++ (nm ++ List.replicate b ' ') ≠ [] := by
    intro he
    rcases List.append_eq_nil.1 he with ⟨_, h2⟩
    rcases List.append_eq_nil.1 h2 with ⟨h3, _⟩
    exact hne h3
  rw [if_neg harg, if_pos hne]

theorem descCapture_pad (d : Str) (a b : Nat) (h : trimStr d = d) :
    descCapture (List.replicate a ' ' ++ (d ++ List.replicate b ' ')) = d := by
  unfold descCapture
  by_cases hd : d = []
  · subst hd
    rw [show (([] : Str) ++ List.replicate b ' ') = List.replicate b ' '
        from List.nil_append _,
      show List.replicate a ' ' ++ List.replicate b ' ' = List.replicate (a + b) ' '
        from (List.replicate_add a b ' ').symm]
    exact trimStr_replicate _
  · exact trim_pad d a b h hd

theorem cellSplit_name_cell (nm : Str) (W : Nat) (r : Str) (h : ∀ x ∈ nm, x ≠ '|') :
    cellSplit (' ' :: (padEndC nm W ++ (' ' :: '|' :: r))) =
      some (' ' :: (padEndC nm W ++ [' ']), r) := by
  rw [show ' ' :: (padEndC nm W ++ (' ' :: '|' :: r)) =
    (' ' :: (padEndC nm W ++ [' '])) ++ '|' :: r by simp]
  apply cellSplit_append
  intro x hx
  rcases List.mem_cons.1 hx with hx | hx
  · subst hx; decide
  · rcases List.mem_append.1 hx with hx | hx
    · rcases mem_padEndC hx with hx | hx
      · exact h x hx
      · subst hx; decide
    · rw [List.mem_singleton.1 hx]
      decide

theorem nameCapture_name_cell (nm : Str) (W : Nat) (h : trimStr nm = nm) (hne : nm ≠ []) :
    nameCapture (' ' :: (padEndC nm W ++ [' '])) = some nm := by
  have := nameCapture_pad nm 1 1 h hne
  rw [show List.replicate 1 ' ' ++ (nm ++ List.replicate 1 ' ') =
    ' ' :: (nm ++ [' ']) by simp] at this
  rw [show ' ' :: (padEndC nm W ++ [' ']) =
    List.replicate 1 ' ' ++ (nm ++ List.replicate (W - nm.length + 1) ' ') by
      simp [padEndC, List.replicate_add]]
  exact nameCapture_pad nm 1 (W - nm.length + 1) h hne

theorem descCapture_desc_cell (d : Str) (D : Nat) (h : trimStr d = d) :
    descCapture (' ' :: (padEndC d D ++ [' '])) = d := by
  rw [show ' ' :: (padEndC d D ++ [' ']) =
    List.replicate 1 ' ' ++ (d ++ List.replicate (D - d.length + 1) ' ') by
      simp [padEndC, List.replicate_add]]
  exact descCapture_pad d 1 _ h

theorem numCell_padded (n : Nat) (r : Str) :
    parseNumCell (' ' :: (padStartC (natDigits n) 4 ++ (' ' :: '|' :: r))) = some (n, r) := by
  rw [parseNumCell_ws_cons _ (by decide)]
  rw [show padStartC (natDigits n) 4 ++ (' ' :: '|' :: r) =
    List.replicate (4 - (natDigits n).length) ' ' ++
      (natDigits n ++ (List.replicate 1 ' ' ++ '|' :: r)) by simp [padStartC]]
  exact parseNumCell_num_cell _ n 1 r

theorem intDigits_of_le {ln en : Nat} (h : ln ≤ en) :
    intDigits ((en : Int) - (ln : Int) + 1) = natDigits (en - ln + 1) := by
  unfold intDigits
  rw [if_neg (by omega)]
  congr 1
  omega

theorem sizeCell_padded (ln en : Nat) (h : ln ≤ en) (r : Str) :
    parseNumCell (' ' :: (padStartC (intDigits ((en : Int) - (ln : Int) + 1)) 4 ++
      (' ' :: '|' :: r))) = some (en - ln + 1, r) := by
  rw [intDigits_of_le h]
  exact numCell_padded _ r

theorem rowMatch_pipe (s1 : Str) : rowMatch ('|' :: s1) =
    (match cellSplit s1 with
     | none => none
     | some (c1, s2) =>
       match nameCapture c1 with
       | none => none
       | some nm =>
         match parseNumCell s2 with
         | none => none
         | some (ln, s3) =>
           match parseNumCell s3 with
           | none => none
           | some (en, s4) =>
             match parseNumCell s4 with
             | some (sz, s5) =>
               match cellSplit s5 with
               | some (c5, s6) =>
                 some (⟨nm, ln, en, some sz, some (descCapture c5)⟩, s6)
               | none => some (⟨nm, ln, en, some sz, none⟩, s5)
             | none =>
               match cellSplit s4 with
               | some (c4, s5) =>
                 some (⟨nm, ln, en, none, some (descCapture c4)⟩, s5)
               | none => some (⟨nm, ln, en, none, none⟩, s4)) := rfl

theorem rowMatch_fail_cell2 (c1 s2 : Str) (h1 : ∀ x ∈ c1, x ≠ '|')
    (h2 : parseNumCell s2 = none) : rowMatch ('|' :: (c1 ++ '|' :: s2)) = none := by
  rw [rowMatch_pipe, cellSplit_append c1 s2 h1]
  rcases hnc : nameCapture c1 with _ | nm <;> simp [hnc, h2]

theorem rowMatch_fail_nopipe (s1 : Str) (h : cellSplit s1 = none) :
    rowMatch ('|' :: s1) = none := by
  rw [rowMatch_pipe, h]

theorem rowMatch_genRow (W D : Nat) (s : Sect) (rest : Str)
    (htrim : trimStr s.name = s.name) (hne : s.name ≠ [])
    (hpipe : ∀ x ∈ s.name, x ≠ '|')
    (hdtrim : trimStr s.desc = s.desc) (hdpipe : ∀ x ∈ s.desc, x ≠ '|')
    (hle : s.line ≤ s.endL) :
    rowMatch ('|' ::
      (' ' :: (padEndC s.name W ++
        (' ' :: '|' :: (' ' :: (padStartC (natDigits s.line) 4 ++
          (' ' :: '|' :: (' ' :: (padStartC (natDigits s.endL) 4 ++
            (' ' :: '|' :: (' ' :: (padStartC (intDigits (sizeOfSect s)) 4 ++
              (' ' :: '|' :: (' ' :: (padEndC s.desc D ++
                (' ' :: '|' :: '\n' :: rest))))))))))))))))
      = some (⟨s.name, s.line, s.endL, some (s.endL - s.line + 1), some s.desc⟩,
          '\n' :: rest) := by
  rw [rowMatch_pipe]
  rw [cellSplit_name_cell s.name W _ hpipe]
  simp only []
  rw [nameCapture_name_cell s.name W htrim hne]
  simp only []
  rw [numCell_padded s.line]
  simp only []
  rw [numCell_padded s.endL]
  simp only []
  rw [show intDigits (sizeOfSect s) = intDigits ((s.endL : Int) - (s.line : Int) + 1) from rfl]
  rw [sizeCell_padded s.line s.endL hle]
  simp only []
  rw [cellSplit_name_cell s.desc D _ hdpipe]
  simp only []
  rw [descCapture_desc_cell s.desc D hdtrim]

theorem genRow_decomp (W D : Nat) (s : Sect) (rest : Str) :
    Mjs.genRow W D s ++ rest =
      ' ' :: '*' :: ' ' :: '|' ::
      (' ' :: (padEndC s.name W ++
        (' ' :: '|' :: (' ' :: (padStartC (natDigits s.line) 4 ++
          (' ' :: '|' :: (' ' :: (padStartC (natDigits s.endL) 4 ++
            (' ' :: '|' :: (' ' :: (padStartC (intDigits (sizeOfSect s)) 4 ++
              (' ' :: '|' :: (' ' :: (padEndC s.desc D ++
                (' ' :: '|' :: '\n' :: rest))))))))))))))) := by
  show (" * | ".data ++ padEndC s.name W ++ " | ".data ++
    padStartC (natDigits s.line) 4 ++ " | ".data ++
    padStartC (natDigits s.endL) 4 ++ " | ".data ++
    padStartC (intDigits (sizeOfSect s)) 4 ++ " | ".data ++
    padEndC s.desc D ++ " |\n".data) ++ rest = _
  rw [show " * | ".data = [' ', '*', ' ', '|', ' '] from rfl,
    show " | ".data = [' ', '|', ' '] from rfl,
    show " |\n".data = [' ', '|', '\n'] from rfl]
  simp [List.append_assoc]

theorem rowMatch_fail_gen (mid : Str) (s2 : Str) (hpipe : ∀ x ∈ mid, x ≠ '|')
    (h2 : parseNumCell s2 = none) :
    rowMatch ('|' :: (' ' :: (mid ++ (' ' :: '|' :: s2)))) = none := by
  have hc : cellSplit (' ' :: (mid ++ (' ' :: '|' :: s2))) =
      some (' ' :: (mid ++ [' ']), s2) := by
    rw [show ' ' :: (mid ++ (' ' :: '|' :: s2)) = (' ' :: (mid ++ [' '])) ++ '|' :: s2 by
      simp]
    apply cellSplit_append
    intro x hx
    rcases List.mem_cons.1 hx with hx | hx
    · subst hx; decide
    · rcases List.mem_append.1 hx with hx | hx
      · exact hpipe x hx
      · rw [List.mem_singleton.1 hx]; decide
  rw [rowMatch_pipe, hc]
  rcases hnc : nameCapture (' ' :: (mid ++ [' '])) with _ | nm <;> simp [hnc, h2]

theorem parseNumCell_star (X : Str) : parseNumCell ('\n' :: ' ' :: '*' :: X) = none := by
  rw [parseNumCell_ws_cons _ (by decide), parseNumCell_ws_cons _ (by decide)]
  exact parseNumCell_head_bad _ (by decide) (by decide)

theorem scanRows_ws_star_skip (X : Str) :
    scanRows (' ' :: '*' :: ' ' :: X) = scanRows X := by
  rw [scanRows_cons_nonpipe _ (by decide), scanRows_cons_nonpipe _ (by decide),
    scanRows_cons_nonpipe _ (by decide)]

/-- Scanning the data rows followed by the block terminator yields exactly
one RowData per section. -/
theorem scanRows_rows (W D : Nat) : ∀ rs : List Sect, (∀ s ∈ rs, SerSect s) →
    scanRows ((rs.map (Mjs.genRow W D)).flatten ++ " */".data) =
      rs.map (fun s =>
        (⟨s.name, s.line, s.endL, some (s.endL - s.line + 1), some s.desc⟩ : RowData)) := by
  intro rs
  induction rs with
  | nil =>
    intro _
    simp only [List.map_nil, List.flatten_nil, List.nil_append]
    decide
  | cons s rest ih =>
    intro h
    obtain ⟨⟨hne, htrim, hpipe, _, _, _, _⟩, ⟨hdtrim, hdpipe, _⟩, hle⟩ := h s (by simp)
    rw [List.map_cons, List.flatten_cons, List.append_assoc, genRow_decomp]
    rw [scanRows_ws_star_skip]
    have hm := rowMatch_genRow W D s ((rest.map (Mjs.genRow W D)).flatten ++ " */".data)
      htrim hne hpipe hdtrim hdpipe hle
    rw [scanRows_cons_match hm]
    rw [scanRows_cons_nonpipe _ (by decide)]
    rw [ih (fun x hx => h x (by simp [hx]))]
    simp

theorem genHeader_decomp (W D : Nat) (X : Str) :
    Mjs.genHeader W D ++ X =
      [' ', '*', ' '] ++ '|' ::
      (' ' :: (padEndC "Section".data W ++
        ([' '] ++ '|' :: ([' ', 'L', 'i', 'n', 'e', ' '] ++ '|' ::
          ([' ', 'E', 'n', 'd', ' ', ' '] ++ '|' ::
            ([' ', 'S', 'i', 'z', 'e', ' '] ++ '|' ::
              (' ' :: (padEndC "Description".data D ++
                ([' '] ++ '|' :: ('\n' :: X)))))))))) := by
  show (" * | ".data ++ padEndC "Section".data W ++
    " | Line | End  | Size | ".data ++ padEndC "Description".data D ++
    " |\n".data) ++ X = _
  rw [show " * | ".data = [' ', '*', ' ', '|', ' '] from rfl,
    show " | Line | End  | Size | ".data =
      [' ', '|', ' ', 'L', 'i', 'n', 'e', ' ', '|', ' ', 'E', 'n', 'd', ' ', ' ', '|',
       ' ', 'S', 'i', 'z', 'e', ' ', '|', ' '] from rfl,
    show " |\n".data = [' ', '|', '\n'] from rfl]
  simp [List.append_assoc]

theorem genSep_decomp (W D : Nat) (X : Str) :
    Mjs.genSep W D ++ X =
      [' ', '*', ' '] ++ '|' ::
      (' ' :: (List.replicate W '-' ++
        ([' '] ++ '|' :: ([' ', '-', '-', '-', '-', ' '] ++ '|' ::
          ([' ', '-', '-', '-', '-', ' '] ++ '|' ::
            ([' ', '-', '-', '-', '-', ' '] ++ '|' ::
              (' ' :: (List.replicate D '-' ++
                ([' '] ++ '|' :: ('\n' :: X)))))))))) := by
  show (" * | ".data ++ List.replicate W '-' ++
    " | ---- | ---- | ---- | ".data ++ List.replicate D '-' ++
    " |\n".data) ++ X = _
  rw [show " * | ".data = [' ', '*', ' ', '|', ' '] from rfl,
    show " | ---- | ---- | ---- | ".data =
      [' ', '|', ' ', '-', '-', '-', '-', ' ', '|', ' ', '-', '-', '-', '-', ' ', '|',
       ' ', '-', '-', '-', '-', ' ', '|', ' '] from rfl,
    show " |\n".data = [' ', '|', '\n'] from rfl]
  simp [List.append_assoc]

theorem padEndC_no_pipe {nm : Str} (n : Nat) (h : ∀ c ∈ nm, c ≠ '|') :
    ∀ c ∈ padEndC nm n, c ≠ '|' := by
  intro c hc
  rcases mem_padEndC hc with hc | hc
  · exact h c hc
  · subst hc; decide

theorem replicate_dash_head (n : Nat) (hn : 20 ≤ n) (X : Str) :
    parseNumCell (List.replicate n '-' ++ X) = none := by
  obtain ⟨m, rfl⟩ : ∃ m, n = m + 1 := ⟨n - 1, by omega⟩
  rw [List.replicate_succ, List.cons_append]
  exact parseNumCell_head_bad _ (by decide) (by decide)

theorem parseNumCell_ws_bad {c : Char} (rest : Str) (h1 : wsChar c = false)
    (h2 : c.isDigit = false) : parseNumCell (' ' :: c :: rest) = none := by
  rw [parseNumCell_ws_cons _ (by decide)]
  exact parseNumCell_head_bad _ h1 h2

theorem hdrLineCell (s2 : Str) :
    parseNumCell (([' ', 'L', 'i', 'n', 'e', ' '] : Str) ++ '|' :: s2) = none :=
  parseNumCell_ws_bad ('i' :: 'n' :: 'e' :: ' ' :: '|' :: s2) (by decide) (by decide)

theorem hdrEndCell (s2 : Str) :
    parseNumCell (([' ', 'E', 'n', 'd', ' ', ' '] : Str) ++ '|' :: s2) = none :=
  parseNumCell_ws_bad ('n' :: 'd' :: ' ' :: ' ' :: '|' :: s2) (by decide) (by decide)

theorem hdrSizeCell (s2 : Str) :
    parseNumCell (([' ', 'S', 'i', 'z', 'e', ' '] : Str) ++ '|' :: s2) = none :=
  parseNumCell_ws_bad ('i' :: 'z' :: 'e' :: ' ' :: '|' :: s2) (by decide) (by decide)

theorem sepDashCell (s2 : Str) :
    parseNumCell (([' ', '-', '-', '-', '-', ' '] : Str) ++ '|' :: s2) = none :=
  parseNumCell_ws_bad ('-' :: '-' :: '-' :: ' ' :: '|' :: s2) (by decide) (by decide)

/-- One failed pipe inside a padded cell: the scan fails at the pipe, skips
the cell content and resumes at the next pipe. -/
theorem scan_step_padcell (mid s2 : Str) (hmid : ∀ x ∈ mid, x ≠ '|')
    (h2 : parseNumCell s2 = none) :
    scanRows ('|' :: (' ' :: (mid ++ ([' '] ++ '|' :: s2)))) = scanRows ('|' :: s2) := by
  have hfail : rowMatch ('|' :: (' ' :: (mid ++ ([' '] ++ '|' :: s2)))) = none :=
    rowMatch_fail_gen mid s2 hmid h2
  rw [scanRows_cons_fail hfail, scanRows_cons_nonpipe _ (by decide),
    scanRows_skip mid _ hmid, scanRows_skip [' '] _ (by decide)]

/-- One failed pipe with a fully literal cell. -/
theorem scan_step_litcell (mid s2 : Str) (hmid : ∀ x ∈ mid, x ≠ '|')
    (h2 : parseNumCell s2 = none) :
    scanRows ('|' :: (mid ++ '|' :: s2)) = scanRows ('|' :: s2) := by
  rw [scanRows_cons_fail (rowMatch_fail_cell2 mid s2 hmid h2), scanRows_skip mid _ hmid]

/-- The pipe that ends the header row, looking into the separator row. -/
theorem scan_step_rowend (s2 : Str) (h2 : parseNumCell s2 = none) :
    scanRows ('|' :: ('\n' :: ([' ', '*', ' '] ++ '|' :: s2))) = scanRows ('|' :: s2) := by
  have hfail : rowMatch ('|' :: ('\n' :: ([' ', '*', ' '] ++ '|' :: s2))) = none :=
    rowMatch_fail_cell2 ['\n', ' ', '*', ' '] s2 (by decide) h2
  rw [scanRows_cons_fail hfail, scanRows_cons_nonpipe _ (by decide),
    scanRows_skip [' ', '*', ' '] _ (by decide)]

theorem tail_head (W D : Nat) (rs : List Sect) :
    ∃ X, (rs.map (Mjs.genRow W D)).flatten ++ " */".data = ' ' :: '*' :: X := by
  cases rs with
  | nil => exact ⟨'/' :: [], rfl⟩
  | cons s t =>
    rw [List.map_cons, List.flatten_cons, List.append_assoc, genRow_decomp]
    exact ⟨_, rfl⟩

/-- Scanning the whole serialized table: the header and separator rows
produce no matches, and the data rows produce exactly their RowData. -/
theorem scanRows_table (W D : Nat) (hW : 20 ≤ W) (hD : 20 ≤ D) (rs : List Sect)
    (h : ∀ s ∈ rs, SerSect s) :
    scanRows (Mjs.genHeader W D ++ (Mjs.genSep W D ++
        ((rs.map (Mjs.genRow W D)).flatten ++ " */".data))) =
      rs.map (fun s =>
        (⟨s.name, s.line, s.endL, some (s.endL - s.line + 1), some s.desc⟩ : RowData)) := by
  rw [genHeader_decomp]
  rw [scanRows_skip [' ', '*', ' '] _ (by decide)]
  rw [scan_step_padcell (padEndC "Section".data W) _
    (padEndC_no_pipe _ (by decide)) (hdrLineCell _)]
  rw [scan_step_litcell [' ', 'L', 'i', 'n', 'e', ' '] _ (by decide) (hdrEndCell _)]
  rw [scan_step_litcell [' ', 'E', 'n', 'd', ' ', ' '] _ (by decide) (hdrSizeCell _)]
  rw [scan_step_litcell [' ', 'S', 'i', 'z', 'e', ' '] _ (by decide)
    (by
      rw [parseNumCell_ws_cons _ (by decide)]
      have : padEndC "Description".data D ++ ([' '] ++ '|' :: ('\n' ::
          (Mjs.genSep W D ++ ((rs.map (Mjs.genRow W D)).flatten ++ " */".data)))) =
          'D' :: ("escription".data ++ (List.replicate (D - 11) ' ' ++ ([' '] ++ '|' :: ('\n' ::
          (Mjs.genSep W D ++ ((rs.map (Mjs.genRow W D)).flatten ++ " */".data)))))) := by
        simp [padEndC]
      rw [this]
      exact parseNumCell_head_bad _ (by decide) (by decide))]
  rw [scan_step_padcell (padEndC "Description".data D) _
    (padEndC_no_pipe _ (by decide))
    (by
      rw [genSep_decomp]
      exact parseNumCell_star _)]
  rw [genSep_decomp]
  rw [scan_step_rowend _
    (by
      rw [parseNumCell_ws_cons _ (by decide)]
      exact replicate_dash_head W hW _)]
  rw [scan_step_padcell (List.replicate W '-') _
    (fun x hx => by rw [List.eq_of_mem_replicate hx]; decide) (sepDashCell _)]
  rw [scan_step_litcell [' ', '-', '-', '-', '-', ' '] _ (by decide) (sepDashCell _)]
  rw [scan_step_litcell [' ', '-', '-', '-', '-', ' '] _ (by decide) (sepDashCell _)]
  rw [scan_step_litcell [' ', '-', '-', '-', '-', ' '] _ (by decide)
    (by
      rw [parseNumCell_ws_cons _ (by decide)]
      exact replicate_dash_head D hD _)]
  rw [scan_step_padcell (List.replicate D '-') _
    (fun x hx => by rw [List.eq_of_mem_replicate hx]; decide)
    (by
      obtain ⟨X, hX⟩ := tail_head W D rs
      rw [hX]
      exact parseNumCell_star X)]
  rcases rs with _ | ⟨s1, t⟩
  · simp only [List.map_nil, List.flatten_nil, List.nil_append]
    decide
  · obtain ⟨Y, hY⟩ : ∃ Y, (List.map (Mjs.genRow W D) (s1 :: t)).flatten ++ " */".data =
        ' ' :: '*' :: ' ' :: '|' :: (' ' :: (padEndC s1.name W ++ (' ' :: '|' :: Y))) := by
      rw [List.map_cons, List.flatten_cons, List.append_assoc, genRow_decomp]
      exact ⟨_, rfl⟩
    obtain ⟨⟨hne1, htrim1, hpipe1, _, hnd1, _, _⟩, _, _⟩ := h s1 (by simp)
    have hfail : rowMatch ('|' :: ('\n' ::
        ((List.map (Mjs.genRow W D) (s1 :: t)).flatten ++ " */".data))) = none := by
      rw [hY]
      have h2 : parseNumCell (' ' :: (padEndC s1.name W ++ (' ' :: '|' :: Y))) = none := by
        rw [parseNumCell_ws_cons _ (by decide)]
        rw [show padEndC s1.name W ++ (' ' :: '|' :: Y) =
          s1.name ++ (List.replicate (W - s1.name.length) ' ' ++ (' ' :: '|' :: Y)) by
            simp [padEndC]]
        exact parseNumCell_mixed s1.name _ hne1 htrim1 hpipe1 hnd1
      have : rowMatch ('|' :: (('\n' :: [' ', '*', ' ']) ++ '|' ::
          (' ' :: (padEndC s1.name W ++ (' ' :: '|' :: Y))))) = none :=
        rowMatch_fail_cell2 ('\n' :: [' ', '*', ' ']) _ (by decide) h2
      exact this
    rw [scanRows_cons_fail hfail, scanRows_cons_nonpipe _ (by decide)]
    exact scanRows_rows W D (s1 :: t) h

/-! The lazy [\s\S]*?\*\/ search: stepping through star-slash-free text. -/

theorem tts_cons_ne_star {c : Char} (rest : Str) (h : c ≠ '*') :
    takeThroughSS (c :: rest) = (takeThroughSS rest).map Nat.succ := by
  rw [takeThroughSS.eq_def]
  split
  · rename_i heq
    exfalso
    rw [List.cons.injEq] at heq
    exact h heq.1
  · rename_i x r heq
    rw [List.cons.injEq] at heq
    rw [heq.2]
  · rename_i heq
    cases heq

theorem tts_star_ne_slash {c : Char} (rest : Str) (h : c ≠ '/') :
    takeThroughSS ('*' :: c :: rest) = (takeThroughSS (c :: rest)).map Nat.succ := by
  rw [takeThroughSS.eq_def]
  split
  · rename_i heq
    exfalso
    rw [List.cons.injEq, List.cons.injEq] at heq
    exact h heq.2.1
  · rename_i x r heq
    rw [List.cons.injEq] at heq
    rw [heq.2]
  · rename_i heq
    cases heq

theorem noStar_noSS {s : Str} (h : ∀ c ∈ s, c ≠ '*') :
    strHasSub "*/".data s = false := by
  induction s with
  | nil => decide
  | cons c t ih =>
    show (("*/".data).isPrefixOf (c :: t) || strHasSub "*/".data t) = false
    rw [ih (fun x hx => h x (by simp [hx]))]
    have hc : c ≠ '*' := h c (by simp)
    rw [show ("*/".data).isPrefixOf (c :: t) = (('*' == c) && ("/".data).isPrefixOf t)
      from rfl]
    simp [Ne.symm hc]

theorem noStar_append {x y : Str} (hx : ∀ c ∈ x, c ≠ '*') (hy : ∀ c ∈ y, c ≠ '*') :
    ∀ c ∈ x ++ y, c ≠ '*' := by
  intro c hc
  rcases List.mem_append.1 hc with hc | hc
  · exact hx c hc
  · exact hy c hc

theorem hasSub2_append (x y : Str) (hx : strHasSub "*/".data x = false)
    (hy : strHasSub "*/".data y = false)
    (hxy : x.getLast? = some '*' → y.head? = some '/' → False) :
    strHasSub "*/".data (x ++ y) = false := by
  induction x with
  | nil => simpa using hy
  | cons c t ih =>
    have hsplit : (("*/".data).isPrefixOf (c :: t) || strHasSub "*/".data t) = false := hx
    rw [Bool.or_eq_false_iff] at hsplit
    obtain ⟨hx1, hx2⟩ := hsplit
    have iht : strHasSub "*/".data (t ++ y) = false := by
      apply ih hx2
      intro hlast hhead
      apply hxy _ hhead
      rcases t with _ | ⟨d, t1⟩
      · simp at hlast
      · rw [List.getLast?_cons_cons]
        exact hlast
    show (("*/".data).isPrefixOf (c :: (t ++ y)) || strHasSub "*/".data (t ++ y)) = false
    rw [iht, Bool.or_false]
    rw [show ("*/".data).isPrefixOf (c :: (t ++ y)) =
      (('*' == c) && ("/".data).isPrefixOf (t ++ y)) from rfl]
    by_cases hc : c = '*'
    · subst hc
      simp only [beq_self_eq_true, Bool.true_and]
      rcases t with _ | ⟨d, t1⟩
      · rcases y with _ | ⟨e, r⟩
        · decide
        · have he : e ≠ '/' := by
            intro hee
            exact hxy (by simp) (by simp [hee])
          have hbe : ('/' == e) = false := beq_eq_false_iff_ne.2 (Ne.symm he)
          show (('/' == e) && List.isPrefixOf ([] : Str) r) = false
          rw [hbe, Bool.false_and]
      · have hd : d ≠ '/' := by
          intro hdd
          subst hdd
          simp [List.isPrefixOf] at hx1
        have hbd : ('/' == d) = false := beq_eq_false_iff_ne.2 (Ne.symm hd)
        show (('/' == d) && List.isPrefixOf ([] : Str) (t1 ++ y)) = false
        rw [hbd, Bool.false_and]
    · simp [Ne.symm hc]

theorem tts_append (a b : Str) (ha : strHasSub "*/".data a = false)
    (hab : a.getLast? = some '*' → b.head? = some '/' → False) :
    takeThroughSS (a ++ b) = (takeThroughSS b).map (fun n => n + a.length) := by
  induction a with
  | nil =>
    rw [List.nil_append]
    cases htb : takeThroughSS b <;> simp [htb]
  | cons c t ih =>
    have hsplit : (("*/".data).isPrefixOf (c :: t) || strHasSub "*/".data t) = false := ha
    rw [Bool.or_eq_false_iff] at hsplit
    obtain ⟨ha1, ha2⟩ := hsplit
    have iht : takeThroughSS (t ++ b) = (takeThroughSS b).map (fun n => n + t.length) := by
      apply ih ha2
      intro hlast hhead
      apply hab _ hhead
      rcases t with _ | ⟨d, t1⟩
      · simp at hlast
      · rw [List.getLast?_cons_cons]
        exact hlast
    by_cases hc : c = '*'
    · subst hc
      rcases t with _ | ⟨d, t1⟩
      · rcases hy : b with _ | ⟨e, r⟩
        · decide
        · have he : e ≠ '/' := by
            intro hee
            exact hab (by simp) (by simp [hy, hee])
          rw [show ('*' :: ([] : Str)) ++ e :: r = '*' :: e :: r by simp]
          rw [tts_star_ne_slash r he]
          rcases takeThroughSS (e :: r) with _ | n <;> simp
      · have hd : d ≠ '/' := by
          intro hdd
          subst hdd
          simp [List.isPrefixOf] at ha1
        rw [show ('*' :: d :: t1) ++ b = '*' :: d :: (t1 ++ b) by simp]
        rw [tts_star_ne_slash _ hd]
        rw [show d :: (t1 ++ b) = (d :: t1) ++ b by simp]
        rw [iht]
        rcases takeThroughSS b with _ | n <;> simp <;> omega
    · rw [show (c :: t) ++ b = c :: (t ++ b) by simp]
      rw [tts_cons_ne_star _ hc]
      rw [iht]
      rcases takeThroughSS b with _ | n <;> simp <;> omega

/-- Cleanliness step for the lazy terminator search: a segment without the
terminator pair and with a safe boundary shifts the search. -/
theorem tts_step (a b : Str) (ha : strHasSub "*/".data a = false)
    (hab : a.getLast? = some '*' → b.head? = some '/' → False)
    (hb : takeThroughSS b = some b.length) :
    takeThroughSS (a ++ b) = some (a ++ b).length := by
  rw [tts_append a b ha hab, hb]
  simp
  omega

theorem mem_of_getLast? {l : Str} {c : Char} (h : l.getLast? = some c) : c ∈ l := by
  rw [← List.head?_reverse] at h
  have : c ∈ l.reverse := by
    rcases hl : l.reverse with _ | ⟨x, t⟩
    · rw [hl] at h; cases h
    · rw [hl] at h
      simp at h
      simp [h]
  simpa using this

theorem getLast?_append_right (x y : Str) (hy : y ≠ []) :
    (x ++ y).getLast? = y.getLast? := by
  rw [← List.head?_reverse, ← List.head?_reverse, List.reverse_append]
  rcases hr : y.reverse with _ | ⟨c, t⟩
  · exfalso
    apply hy
    simpa using congrArg List.reverse hr
  · simp

theorem mem_padStartC {c : Char} {s : Str} {n : Nat} (h : c ∈ padStartC s n) :
    c ∈ s ∨ c = ' ' := by
  unfold padStartC at h
  rcases List.mem_append.1 h with h | h
  · exact Or.inr (List.eq_of_mem_replicate h)
  · exact Or.inl h

theorem natDigits_noStar (n : Nat) : ∀ c ∈ natDigits n, c ≠ '*' :=
  fun c hc => isDigit_ne (natDigits_all_digit n c hc) (by decide)

theorem intDigits_noStar (i : Int) : ∀ c ∈ intDigits i, c ≠ '*' := by
  intro c hc
  unfold intDigits at hc
  by_cases hi : i < 0
  · rw [if_pos hi] at hc
    rcases List.mem_cons.1 hc with hc | hc
    · subst hc; decide
    · exact natDigits_noStar _ c hc
  · rw [if_neg hi] at hc
    exact natDigits_noStar _ c hc

theorem genRow_noStar_tail (W D : Nat) (s : Sect)
    (hn : ∀ c ∈ s.name, c ≠ '*') (hd : ∀ c ∈ s.desc, c ≠ '*') :
    ∀ c ∈ padEndC s.name W ++ " | ".data ++
      padStartC (natDigits s.line) 4 ++ " | ".data ++
      padStartC (natDigits s.endL) 4 ++ " | ".data ++
      padStartC (intDigits (sizeOfSect s)) 4 ++ " | ".data ++
      padEndC s.desc D ++ " |\n".data, c ≠ '*' := by
  have hlit : ∀ c ∈ " | ".data, c ≠ '*' := by decide
  have hlit2 : ∀ c ∈ " |\n".data, c ≠ '*' := by decide
  have hpe : ∀ c ∈ padEndC s.name W, c ≠ '*' := by
    intro c hc
    rcases mem_padEndC hc with hc | hc
    · exact hn c hc
    · subst hc; decide
  have hpd : ∀ c ∈ padEndC s.desc D, c ≠ '*' := by
    intro c hc
    rcases mem_padEndC hc with hc | hc
    · exact hd c hc
    · subst hc; decide
  have hps : ∀ (ds : Str), (∀ c ∈ ds, c ≠ '*') → ∀ c ∈ padStartC ds 4, c ≠ '*' := by
    intro ds hds c hc
    rcases mem_padStartC hc with hc | hc
    · exact hds c hc
    · subst hc; decide
  exact noStar_append (noStar_append (noStar_append (noStar_append (noStar_append
    (noStar_append (noStar_append (noStar_append (noStar_append hpe hlit)
      (hps _ (natDigits_noStar _))) hlit) (hps _ (natDigits_noStar _))) hlit)
      (hps _ (intDigits_noStar _))) hlit) hpd) hlit2

theorem genRow_clean (W D : Nat) (s : Sect)
    (hn : ∀ c ∈ s.name, c ≠ '*') (hd : ∀ c ∈ s.desc, c ≠ '*') :
    strHasSub "*/".data (Mjs.genRow W D s) = false := by
  rw [show Mjs.genRow W D s = " * | ".data ++
    (padEndC s.name W ++ " | ".data ++
      padStartC (natDigits s.line) 4 ++ " | ".data ++
      padStartC (natDigits s.endL) 4 ++ " | ".data ++
      padStartC (intDigits (sizeOfSect s)) 4 ++ " | ".data ++
      padEndC s.desc D ++ " |\n".data) by simp [Mjs.genRow]]
  apply hasSub2_append _ _ (by decide) (noStar_noSS (genRow_noStar_tail W D s hn hd))
  intro hlast _
  exact absurd hlast (by decide)

theorem genRow_getLast (W D : Nat) (s : Sect) :
    (Mjs.genRow W D s).getLast? = some '\n' := by
  unfold Mjs.genRow
  rw [getLast?_append_right _ _ (by decide)]
  decide

theorem genHeader_clean (W D : Nat) :
    strHasSub "*/".data (Mjs.genHeader W D) = false := by
  rw [show Mjs.genHeader W D = " * | ".data ++
    (padEndC "Section".data W ++ " | Line | End  | Size | ".data ++
      padEndC "Description".data D ++ " |\n".data) by simp [Mjs.genHeader]]
  apply hasSub2_append _ _ (by decide)
  · apply noStar_noSS
    have h1 : ∀ c ∈ padEndC "Section".data W, c ≠ '*' := by
      intro c hc
      rcases mem_padEndC hc with hc | hc
      · exact (show ∀ x ∈ ("Section".data : Str), x ≠ '*' by decide) c hc
      · subst hc; decide
    have h2 : ∀ c ∈ padEndC "Description".data D, c ≠ '*' := by
      intro c hc
      rcases mem_padEndC hc with hc | hc
      · exact (show ∀ x ∈ ("Description".data : Str), x ≠ '*' by decide) c hc
      · subst hc; decide
    exact noStar_append (noStar_append (noStar_append h1 (by decide)) h2) (by decide)
  · intro hlast _
    exact absurd hlast (by decide)

theorem genHeader_getLast (W D : Nat) : (Mjs.genHeader W D).getLast? = some '\n' := by
  unfold Mjs.genHeader
  rw [show " * | ".data ++ padEndC "Section".data W ++
      " | Line | End  | Size | ".data ++ padEndC "Description".data D ++ " |\n".data =
    (" * | ".data ++ padEndC "Section".data W ++
      " | Line | End  | Size | ".data ++ padEndC "Description".data D) ++ " |\n".data by
      simp]
  rw [getLast?_append_right _ _ (by decide)]
  decide

theorem genSep_clean (W D : Nat) :
    strHasSub "*/".data (Mjs.genSep W D) = false := by
  rw [show Mjs.genSep W D = " * | ".data ++
    (List.replicate W '-' ++ " | ---- | ---- | ---- | ".data ++
      List.replicate D '-' ++ " |\n".data) by simp [Mjs.genSep]]
  apply hasSub2_append _ _ (by decide)
  · apply noStar_noSS
    have h1 : ∀ (n : Nat), ∀ c ∈ List.replicate n '-', c ≠ '*' := by
      intro n c hc
      rw [List.eq_of_mem_replicate hc]
      decide
    exact noStar_append (noStar_append (noStar_append (h1 W) (by decide)) (h1 D)) (by decide)
  · intro hlast _
    exact absurd hlast (by decide)

theorem genSep_getLast (W D : Nat) : (Mjs.genSep W D).getLast? = some '\n' := by
  unfold Mjs.genSep
  rw [show " * | ".data ++ List.replicate W '-' ++
      " | ---- | ---- | ---- | ".data ++ List.replicate D '-' ++ " |\n".data =
    (" * | ".data ++ List.replicate W '-' ++
      " | ---- | ---- | ---- | ".data ++ List.replicate D '-') ++ " |\n".data by simp]
  rw [getLast?_append_right _ _ (by decide)]
  decide

theorem tts_rows (W D : Nat) : ∀ rs : List Sect,
    (∀ s ∈ rs, (∀ c ∈ s.name, c ≠ '*') ∧ ∀ c ∈ s.desc, c ≠ '*') →
    takeThroughSS ((rs.map (Mjs.genRow W D)).flatten ++ " */".data) =
      some ((rs.map (Mjs.genRow W D)).flatten ++ " */".data).length := by
  intro rs
  induction rs with
  | nil =>
    intro _
    simp only [List.map_nil, List.flatten_nil, List.nil_append]
    decide
  | cons s t ih =>
    intro h
    rw [List.map_cons, List.flatten_cons, List.append_assoc]
    exact tts_step _ _
      (genRow_clean W D s (h s (by simp)).1 (h s (by simp)).2)
      (by
        intro hlast _
        rw [genRow_getLast] at hlast
        cases hlast)
      (ih (fun x hx => h x (by simp [hx])))

theorem tts_gen (W D : Nat) (now : Str) (N : Nat) (rs : List Sect)
    (hnow : ∀ c ∈ now, c ≠ '*')
    (h : ∀ s ∈ rs, (∀ c ∈ s.name, c ≠ '*') ∧ ∀ c ∈ s.desc, c ≠ '*') :
    takeThroughSS ("\n * @generated ".data ++ (now ++ ("\n * @total-lines ".data ++
        (natDigits N ++ ("\n *\n".data ++ (Mjs.genHeader W D ++ (Mjs.genSep W D ++
        ((rs.map (Mjs.genRow W D)).flatten ++ " */".data)))))))) =
      some ("\n * @generated ".data ++ (now ++ ("\n * @total-lines ".data ++
        (natDigits N ++ ("\n *\n".data ++ (Mjs.genHeader W D ++ (Mjs.genSep W D ++
        ((rs.map (Mjs.genRow W D)).flatten ++ " */".data)))))))).length := by
  have hrows := tts_rows W D rs h
  have hsep : takeThroughSS (Mjs.genSep W D ++ ((rs.map (Mjs.genRow W D)).flatten ++
      " */".data)) = some (Mjs.genSep W D ++ ((rs.map (Mjs.genRow W D)).flatten ++
      " */".data)).length :=
    tts_step _ _ (genSep_clean W D)
      (by intro hlast _; rw [genSep_getLast] at hlast; cases hlast) hrows
  have hhdr : takeThroughSS (Mjs.genHeader W D ++ (Mjs.genSep W D ++
      ((rs.map (Mjs.genRow W D)).flatten ++ " */".data))) =
      some (Mjs.genHeader W D ++ (Mjs.genSep W D ++
      ((rs.map (Mjs.genRow W D)).flatten ++ " */".data))).length :=
    tts_step _ _ (genHeader_clean W D)
      (by intro hlast _; rw [genHeader_getLast] at hlast; cases hlast) hsep
  have h3 := tts_step "\n *\n".data _ (by decide)
    (by intro hlast _; revert hlast; decide) hhdr
  have h4 := tts_step (natDigits N) _ (noStar_noSS (natDigits_noStar N))
    (by
      intro hlast _
      have := mem_of_getLast? hlast
      exact natDigits_noStar N _ this rfl) h3
  have h5 := tts_step "\n * @total-lines ".data _ (by decide)
    (by intro hlast _; revert hlast; decide) h4
  have h6 := tts_step now _ (noStar_noSS hnow)
    (by
      intro hlast _
      have := mem_of_getLast? hlast
      exact hnow _ this rfl) h5
  exact tts_step "\n * @generated ".data _ (by decide)
    (by intro hlast _; revert hlast; decide) h6

theorem isPrefixOf_append_self : ∀ (a b : Str), a.isPrefixOf (a ++ b) = true := by
  intro a
  induction a with
  | nil => intro b; rw [List.nil_append]; simp [List.isPrefixOf]
  | cons c t ih =>
    intro b
    show ((c == c) && t.isPrefixOf (t ++ b)) = true
    rw [ih b]
    simp

theorem expectLit_append (lit r : Str) : expectLit lit (lit ++ r) = some r := by
  unfold expectLit
  rw [if_pos (isPrefixOf_append_self lit r)]
  rw [List.drop_left]

theorem wsNlCands_shape (X : Str) :
    wsNlCands ('\n' :: ' ' :: '*' :: X) = [' ' :: '*' :: X] := by
  unfold wsNlCands
  rw [show ('\n' :: ' ' :: '*' :: X).takeWhile wsChar = ['\n', ' '] by
    rw [List.takeWhile_cons, if_pos (by decide), List.takeWhile_cons, if_pos (by decide),
      takeWhile_nil_of_head _ (by decide)]]
  rfl

theorem blockAt_assembled (R : Str)
    (htts : takeThroughSS ("\n * @generated ".data ++ R) =
      some ("\n * @generated ".data ++ R).length) :
    blockAt ("/**\n * @ai-index\n * @generated ".data ++ R) =
      some ("/**\n * @ai-index\n * @generated ".data ++ R).length := by
  have e1 : ("/**\n * @ai-index\n * @generated ".data : Str) ++ R =
      "/**".data ++ ('\n' :: ' ' :: '*' :: ((' ' :: ("@ai-index".data ++
        ("\n * @generated ".data ++ R))))) := by
    rw [show ("/**\n * @ai-index\n * @generated ".data : Str) =
      "/**".data ++ ('\n' :: ' ' :: '*' :: ' ' :: ("@ai-index".data ++
        "\n * @generated ".data)) by decide]
    simp
  have hbt : blockTail (' ' :: '*' :: (' ' :: ("@ai-index".data ++
      ("\n * @generated ".data ++ R)))) = some 0 := by
    show (match takeThroughSS ("\n * @generated ".data ++ R) with
      | some n => some (("\n * @generated ".data ++ R).length - n)
      | none => none) = some 0
    rw [htts]
    simp
  rw [e1]
  show (match (match blockTail (' ' :: '*' :: (' ' :: ("@ai-index".data ++
        ("\n * @generated ".data ++ R)))) with
      | some n => some n
      | none => firstTail []) with
    | some remLen =>
      some (("/**".data ++ ('\n' :: ' ' :: '*' :: (' ' :: ("@ai-index".data ++
        ("\n * @generated ".data ++ R))))).length - remLen)
    | none => none) =
    some ("/**".data ++ ('\n' :: ' ' :: '*' :: (' ' :: ("@ai-index".data ++
      ("\n * @generated ".data ++ R))))).length
  rw [hbt]
  simp

theorem maxWidth_ge (ls : List Nat) : 20 ≤ Mjs.maxWidth ls := by
  induction ls with
  | nil => simp [Mjs.maxWidth]
  | cons a t ih =>
    unfold Mjs.maxWidth at ih ⊢
    simp only [List.foldr_cons]
    omega

/-! Keyed insertion: lookup laws. -/

theorem lookupSect_upsert_self (m : List (Str × PSect)) (k : Str) (v : PSect) :
    lookupSect (upsert m k v) k = some v := by
  induction m with
  | nil => simp [upsert, lookupSect]
  | cons p rest ih =>
    rcases p with ⟨k0, v0⟩
    unfold upsert
    by_cases hk : k0 = k
    · subst hk
      simp [lookupSect]
    · rw [if_neg hk]
      unfold lookupSect at ih ⊢
      rw [List.find?_cons_of_neg _ (by simpa using hk)]
      exact ih

theorem lookupSect_upsert_ne (m : List (Str × PSect)) (k' : Str) (v : PSect) (k : Str)
    (h : k' ≠ k) : lookupSect (upsert m k' v) k = lookupSect m k := by
  induction m with
  | nil => simp [upsert, lookupSect, h]
  | cons p rest ih =>
    rcases p with ⟨k0, v0⟩
    unfold upsert
    by_cases hk : k0 = k'
    · rw [if_pos hk]
      subst hk
      unfold lookupSect
      rw [List.find?_cons_of_neg _ (by simpa using h),
        List.find?_cons_of_neg _ (by simpa using h)]
    · rw [if_neg hk]
      unfold lookupSect at ih ⊢
      by_cases hk0 : k0 = k
      · rw [List.find?_cons_of_pos _ (by simpa using hk0),
          List.find?_cons_of_pos _ (by simpa using hk0)]
      · rw [List.find?_cons_of_neg _ (by simpa using hk0),
          List.find?_cons_of_neg _ (by simpa using hk0)]
        exact ih

theorem lookupSect_foldl_notmem :
    ∀ (ps : List (Str × PSect)) (m : List (Str × PSect)) (k : Str),
    k ∉ ps.map Prod.fst →
    lookupSect (ps.foldl (fun acc p => upsert acc p.1 p.2) m) k = lookupSect m k := by
  intro ps
  induction ps with
  | nil => intro m k _; rfl
  | cons p rest ih =>
    intro m k hk
    simp only [List.map_cons, List.mem_cons] at hk
    push_neg at hk
    rw [List.foldl_cons]
    rw [ih _ _ hk.2]
    exact lookupSect_upsert_ne m p.1 p.2 k (fun h => hk.1 h.symm)

theorem upsert_foldl_lookup :
    ∀ (ps : List (Str × PSect)) (m : List (Str × PSect)) (k : Str) (v : PSect),
    (ps.map Prod.fst).Nodup → (k, v) ∈ ps →
    lookupSect (ps.foldl (fun acc p => upsert acc p.1 p.2) m) k = some v := by
  intro ps
  induction ps with
  | nil => intro m k v _ hm; cases hm
  | cons p rest ih =>
    intro m k v hnd hm
    simp only [List.map_cons, List.nodup_cons] at hnd
    rcases List.mem_cons.1 hm with hm | hm
    · subst hm
      rw [List.foldl_cons]
      rw [lookupSect_foldl_notmem rest _ _ hnd.1]
      exact lookupSect_upsert_self m _ _
    · rw [List.foldl_cons]
      exact ih _ _ _ hnd.2 hm

/-- buildSections over well-behaved rows is plain keyed insertion. -/
theorem buildSections_eq (S : List Sect) (hser : ∀ s ∈ S, SerSect s) :
    ∀ m : List (Str × PSect),
    (S.map (fun s =>
      (⟨s.name, s.line, s.endL, some (s.endL - s.line + 1), some s.desc⟩ : RowData))).foldl
      (fun m r =>
        if ¬ r.name.isEmpty ∧ ¬ strHasSub "Section".data r.name ∧
            ¬ strHasSub "---".data r.name then
          upsert m (trimStr r.name)
            ⟨r.line, r.endL,
              match r.size? with
              | some z => (z : Int)
              | none => (r.endL : Int) - (r.line : Int),
              r.desc?.getD []⟩
        else m)
      m =
    (S.map (fun s => (s.name,
      (⟨s.line, s.endL, ((s.endL - s.line + 1 : Nat) : Int), s.desc⟩ : PSect)))).foldl
      (fun acc p => upsert acc p.1 p.2) m := by
  induction S with
  | nil => intro m; rfl
  | cons s t ih =>
    intro m
    obtain ⟨⟨hne, htrim, _, _, _, hsub1, hsub2⟩, _, _⟩ := hser s (by simp)
    rw [List.map_cons, List.map_cons, List.foldl_cons, List.foldl_cons]
    rw [if_pos ⟨by simpa using hne, hsub1, hsub2⟩]
    simp only [htrim]
    exact ih (fun x hx => hser x (by simp [hx])) _

/-- The core round-trip fact: parsing the serialized block succeeds, spans
the whole text, and carries exactly the keyed sections. -/
theorem parseIndex_generateIndex (S : List Sect) (N : Nat) (now : Str)
    (hnow1 : ∀ c ∈ now, c ≠ '|') (hnow2 : ∀ c ∈ now, c ≠ '*')
    (hser : ∀ s ∈ S, SerSect s) :
    Mjs.parseIndex (Mjs.generateIndex S N now) =
      some ⟨Mjs.generateIndex S N now,
        (S.map (fun s => (s.name,
          (⟨s.line, s.endL, ((s.endL - s.line + 1 : Nat) : Int), s.desc⟩ : PSect)))).foldl
          (fun acc p => upsert acc p.1 p.2) [],
        0, (Mjs.generateIndex S N now).length⟩ := by
  have hshape : Mjs.generateIndex S N now =
      "/**\n * @ai-index\n * @generated ".data ++ (now ++ ("\n * @total-lines ".data ++
        (natDigits N ++ ("\n *\n".data ++
          (Mjs.genHeader (Mjs.maxWidth (S.map (fun s => s.name.length)))
              (Mjs.maxWidth (S.map (fun s => s.desc.length))) ++
            (Mjs.genSep (Mjs.maxWidth (S.map (fun s => s.name.length)))
              (Mjs.maxWidth (S.map (fun s => s.desc.length))) ++
            ((S.map (Mjs.genRow (Mjs.maxWidth (S.map (fun s => s.name.length)))
              (Mjs.maxWidth (S.map (fun s => s.desc.length))))).flatten ++
              " */".data))))))) := by
    simp [Mjs.generateIndex, List.append_assoc]
  have hstar : ∀ s ∈ S, (∀ c ∈ s.name, c ≠ '*') ∧ ∀ c ∈ s.desc, c ≠ '*' := by
    intro s hs
    obtain ⟨⟨_, _, _, h1, _, _, _⟩, ⟨_, _, h2⟩, _⟩ := hser s hs
    exact ⟨h1, h2⟩
  have htts := tts_gen (Mjs.maxWidth (S.map (fun s => s.name.length)))
    (Mjs.maxWidth (S.map (fun s => s.desc.length))) now N S hnow2 hstar
  have hblockAt : blockAt (Mjs.generateIndex S N now) =
      some (Mjs.generateIndex S N now).length := by
    rw [hshape]
    exact blockAt_assembled _ htts
  have hne : Mjs.generateIndex S N now ≠ [] := by
    rw [hshape]
    simp
  have hbm : blockMatch (Mjs.generateIndex S N now) =
      some (0, (Mjs.generateIndex S N now).length) := by
    rcases hsplit : Mjs.generateIndex S N now with _ | ⟨c, rest⟩
    · exact absurd hsplit hne
    · rw [hsplit] at hblockAt
      simp [blockMatch, hblockAt]
  have hscan : scanRows (Mjs.generateIndex S N now) =
      S.map (fun s =>
        (⟨s.name, s.line, s.endL, some (s.endL - s.line + 1), some s.desc⟩ : RowData)) := by
    rw [hshape]
    rw [scanRows_skip "/**\n * @ai-index\n * @generated ".data _ (by decide)]
    rw [scanRows_skip now _ hnow1]
    rw [scanRows_skip "\n * @total-lines ".data _ (by decide)]
    rw [scanRows_skip (natDigits N) _
      (fun c hc => isDigit_ne (natDigits_all_digit N c hc) (by decide))]
    rw [scanRows_skip "\n *\n".data _ (by decide)]
    exact scanRows_table _ _ (maxWidth_ge _) (maxWidth_ge _) S hser
  unfold Mjs.parseIndex
  rw [hbm]
  simp only [List.drop_zero, List.take_length]
  rw [hscan]
  rw [show buildSections (S.map (fun s =>
      (⟨s.name, s.line, s.endL, some (s.endL - s.line + 1), some s.desc⟩ : RowData))) =
    (S.map (fun s => (s.name,
      (⟨s.line, s.endL, ((s.endL - s.line + 1 : Nat) : Int), s.desc⟩ : PSect)))).foldl
      (fun acc p => upsert acc p.1 p.2) [] from buildSections_eq S hser []]
  simp

/-- Lookup form of the round trip. -/
theorem roundtrip_lookup (S : List Sect) (N : Nat) (now : Str)
    (hnow1 : ∀ c ∈ now, c ≠ '|') (hnow2 : ∀ c ∈ now, c ≠ '*')
    (hser : ∀ s ∈ S, SerSect s) (hnodup : (S.map (fun s => s.name)).Nodup) :
    ∀ s ∈ S, (Mjs.parseIndex (Mjs.generateIndex S N now)).bind
        (fun idx => lookupSect idx.sections s.name) =
      some ⟨s.line, s.endL, ((s.endL - s.line + 1 : Nat) : Int), s.desc⟩ := by
  intro s hs
  rw [parseIndex_generateIndex S N now hnow1 hnow2 hser]
  simp only [Option.some_bind]
  apply upsert_foldl_lookup
  · rw [show (S.map (fun s => (s.name,
      (⟨s.line, s.endL, ((s.endL - s.line + 1 : Nat) : Int), s.desc⟩ : PSect)))).map
        Prod.fst = S.map (fun s => s.name) by simp]
    exact hnodup
  · exact List.mem_map.2 ⟨s, hs, rfl⟩

/-! ## Helper lemmas for the claim theorems. -/

/-- The verify comparison pass as a flat map over the recomputed sections. -/
theorem explicitErrors_acc (stored : List (Str × PSect)) :
    ∀ (explicit : List Sect) (acc : List Script.VerifyIssue),
    explicit.foldl
      (fun es e =>
        match lookupSect stored e.name with
        | none => es ++ [.missingFromIndex e.name]
        | some s =>
          if 5 < ((s.line : Int) - (e.line : Int)).natAbs then
            es ++ [.lineDrift e.name s.line e.line]
          else es) acc =
    acc ++ explicit.flatMap
      (fun e =>
        match lookupSect stored e.name with
        | none => [Script.VerifyIssue.missingFromIndex e.name]
        | some s =>
          if 5 < ((s.line : Int) - (e.line : Int)).natAbs then
            [Script.VerifyIssue.lineDrift e.name s.line e.line]
          else []) := by
  intro explicit
  induction explicit with
  | nil => intro acc; simp
  | cons e t ih =>
    intro acc
    rw [List.foldl_cons, List.flatMap_cons]
    rcases hl : lookupSect stored e.name with _ | s
    · simp only [hl]
      rw [ih, List.append_assoc]
    · simp only [hl]
      by_cases h5 : 5 < ((s.line : Int) - (e.line : Int)).natAbs
      · rw [if_pos h5, if_pos h5, ih, List.append_assoc]
      · rw [if_neg h5, if_neg h5, ih, List.nil_append]

/-- explicitErrors in flat-map form. -/
theorem explicitErrors_eq (stored : List (Str × PSect)) (explicit : List Sect) :
    Script.explicitErrors stored explicit =
    explicit.flatMap
      (fun e =>
        match lookupSect stored e.name with
        | none => [Script.VerifyIssue.missingFromIndex e.name]
        | some s =>
          if 5 < ((s.line : Int) - (e.line : Int)).natAbs then
            [Script.VerifyIssue.lineDrift e.name s.line e.line]
          else []) := by
  have h := explicitErrors_acc stored explicit []
  rw [List.nil_append] at h
  exact h

/-- A grouping pass that still holds an open section ends with a section
closed at the file's last line. -/
theorem groupGo_open_last (detected : List Script.Detected) (total : Nat) :
    ∀ (k i : Nat) (nm : Str) (st : Nat) (acc : List Sect),
    ∃ nm2 st2, (Script.groupGo detected total k i (some (nm, st)) acc).getLast? =
      some ⟨nm2, st2, total, []⟩ := by
  intro k
  induction k with
  | zero =>
    intro i nm st acc
    exact ⟨nm, st, by simp [Script.groupGo]⟩
  | succ k ih =>
    intro i nm st acc
    rw [Script.groupGo]
    rcases hf : detected.find? (fun d => d.line = i) with _ | d
    · simp only [hf]
      exact ih (i + 1) nm st acc
    · simp only [hf]
      by_cases hnm : nm ≠ d.sectionName
      · rw [if_pos hnm, if_pos hnm]
        exact ih (i + 1) _ _ _
      · rw [if_neg hnm, if_neg hnm]
        exact ih (i + 1) _ _ _

/-- A grouping pass with no open section either adds nothing or ends with a
section closed at the file's last line. -/
theorem groupGo_none_last (detected : List Script.Detected) (total : Nat) :
    ∀ (k i : Nat) (acc : List Sect),
    Script.groupGo detected total k i none acc = acc ∨
    ∃ nm2 st2, (Script.groupGo detected total k i none acc).getLast? =
      some ⟨nm2, st2, total, []⟩ := by
  intro k
  induction k with
  | zero => intro i acc; left; rfl
  | succ k ih =>
    intro i acc
    rw [Script.groupGo]
    rcases hf : detected.find? (fun d => d.line = i) with _ | d
    · simp only [hf]
      exact ih (i + 1) acc
    · simp only [hf]
      right
      exact groupGo_open_last detected total k (i + 1) d.sectionName i acc

/-! ## The claim theorems. -/

/-- Claim C1 (counterexample to the literal statement): a section whose name
is exactly "Section" is serialized but then dropped by the parser's row
filter, so the round trip loses it. -/
theorem c1_section_name_dropped :
    (Mjs.parseIndex (Mjs.generateIndex [⟨"Section".data, 1, 3, []⟩] 5 "T".data)).map
      (fun idx => lookupSect idx.sections "Section".data) = some none := by
  decide

/-- Claim C1 (amended): for sections whose names and descriptions are
trimmed, pipe- and star-free, not pure digit runs, without the filtered
substrings "Section" and "---", with distinct names and start ≤ end, parsing
the serialized block returns every section with identical name, start, end,
derived size, and description. -/
theorem c1_roundtrip_amended (S : List Sect) (N : Nat) (now : Str)
    (hnow1 : ∀ c ∈ now, c ≠ '|') (hnow2 : ∀ c ∈ now, c ≠ '*')
    (hser : ∀ s ∈ S, SerSect s) (hnodup : (S.map (fun s => s.name)).Nodup) :
    ∀ s ∈ S, (Mjs.parseIndex (Mjs.generateIndex S N now)).bind
        (fun idx => lookupSect idx.sections s.name) =
      some ⟨s.line, s.endL, ((s.endL - s.line + 1 : Nat) : Int), s.desc⟩ :=
  roundtrip_lookup S N now hnow1 hnow2 hser hnodup

/-- Witness for C1 at a concrete section list. -/
theorem c1_roundtrip_amended_witness :
    (Mjs.parseIndex (Mjs.generateIndex [⟨"alpha".data, 1, 3, "Intro".data⟩] 3 "T".data)).bind
        (fun idx => lookupSect idx.sections "alpha".data) =
      some ⟨1, 3, 3, "Intro".data⟩ :=
  c1_roundtrip_amended [⟨"alpha".data, 1, 3, "Intro".data⟩] 3 "T".data
    (by decide) (by decide) (by decide) (by decide)
    ⟨"alpha".data, 1, 3, "Intro".data⟩ (by decide)

/-- Claim C2: the MCP index resolution never returns an empty section list,
and when both the explicit scanner and the auto scanner find nothing it is
exactly the single whole-file main section. -/
theorem c2_sections_nonempty_fallback (filePath content : Str) :
    (Mcp.generateIndex filePath content).sections ≠ [] ∧
    (Mcp.detectSectionsExplicit (splitLines content) (Mcp.detectLanguage filePath) = [] →
     Mcp.detectSectionsAuto (splitLines content) (Mcp.detectLanguage filePath) = [] →
     (Mcp.generateIndex filePath content).sections =
       [⟨"main".data, "Main content".data, 1, (splitLines content).length,
         (splitLines content).length⟩]) := by
  have hcore : ∀ (lines : List Str) (cfg : Option Mcp.McpCfg),
      Mcp.generateIndexCore lines cfg ≠ [] ∧
      (Mcp.detectSectionsExplicit lines cfg = [] →
       Mcp.detectSectionsAuto lines cfg = [] →
       Mcp.generateIndexCore lines cfg =
         [⟨"main".data, "Main content".data, 1, lines.length, lines.length⟩]) := by
    intro lines cfg
    constructor
    · by_cases h1 : Mcp.detectSectionsExplicit lines cfg = []
      · by_cases h2 : Mcp.detectSectionsAuto lines cfg = []
        · simp [Mcp.generateIndexCore, h1, h2]
        · simp [Mcp.generateIndexCore, h1, h2]
      · simp [Mcp.generateIndexCore, h1]
    · intro hexp hauto
      simp [Mcp.generateIndexCore, hexp, hauto]
  exact ⟨(hcore (splitLines content) (Mcp.detectLanguage filePath)).1,
    fun h1 h2 => (hcore (splitLines content) (Mcp.detectLanguage filePath)).2 h1 h2⟩

/-- Claim C4: for a recomputed explicit section present in the stored block,
the line-drift issue is reported exactly when the stored and recomputed
start lines differ by more than 5. -/
theorem c4_line_drift_tolerance (stored : List (Str × PSect)) (explicit : List Sect)
    (e : Sect) (he : e ∈ explicit) (s : PSect)
    (hs : lookupSect stored e.name = some s) :
    (Script.VerifyIssue.lineDrift e.name s.line e.line ∈
        Script.explicitErrors stored explicit ↔
      5 < ((s.line : Int) - (e.line : Int)).natAbs) := by
  rw [explicitErrors_eq]
  rw [List.mem_flatMap]
  constructor
  · rintro ⟨e2, he2, hmem⟩
    rcases hl2 : lookupSect stored e2.name with _ | s2
    · simp only [hl2] at hmem
      simp at hmem
    · simp only [hl2] at hmem
      by_cases h5 : 5 < ((s2.line : Int) - (e2.line : Int)).natAbs
      · rw [if_pos h5] at hmem
        simp only [List.mem_singleton, Script.VerifyIssue.lineDrift.injEq] at hmem
        obtain ⟨h1, h2, h3⟩ := hmem
        rw [h2, h3]
        exact h5
      · rw [if_neg h5] at hmem
        simp at hmem
  · intro h5
    refine ⟨e, he, ?_⟩
    simp only [hs]
    rw [if_pos h5]
    simp

/-- Witness for C4: a stored start of 10 against a recomputed start of 4
(drift 6) is flagged. -/
theorem c4_line_drift_tolerance_witness :
    (Script.VerifyIssue.lineDrift "a".data 10 4 ∈
        Script.explicitErrors [("a".data, ⟨10, 20, 11, []⟩)] [⟨"a".data, 4, 20, []⟩] ↔
      5 < ((10 : Int) - (4 : Int)).natAbs) :=
  c4_line_drift_tolerance [("a".data, ⟨10, 20, 11, []⟩)] [⟨"a".data, 4, 20, []⟩]
    ⟨"a".data, 4, 20, []⟩ (by decide) ⟨10, 20, 11, []⟩ (by decide)

/-- Claim C5 (counterexample to the literal statement): on a TypeScript file
whose explicit scan is empty but whose auto scan would find an imports
section, indexFile of src/index.mjs still resolves to the single main
section: it never attempts auto-detection. -/
theorem c5_mjs_skips_auto :
    Mjs.findSections "import x\ny".data (getLanguagePlugin "a.ts".data) = [] ∧
    Script.detectSectionsAuto "import x\ny".data (getLanguagePlugin "a.ts".data) =
      [⟨"imports".data, 1, 2, []⟩] ∧
    Mjs.resolveSections "import x\ny".data (getLanguagePlugin "a.ts".data) =
      [⟨"main".data, 1, 2, "Main content".data⟩] := by
  refine ⟨by decide, by decide, by decide⟩

/-- Claim C5 (amended): in the MCP resolution chain the auto scanner's
result is used exactly when the explicit scanner returns an empty list, and
the main fallback fires only when both are empty. -/
theorem c5_auto_exactly_when_explicit_empty (lines : List Str)
    (cfg : Option Mcp.McpCfg) :
    (Mcp.detectSectionsExplicit lines cfg ≠ [] →
      Mcp.generateIndexCore lines cfg = Mcp.detectSectionsExplicit lines cfg) ∧
    (Mcp.detectSectionsExplicit lines cfg = [] →
      Mcp.detectSectionsAuto lines cfg ≠ [] →
      Mcp.generateIndexCore lines cfg = Mcp.detectSectionsAuto lines cfg) ∧
    (Mcp.detectSectionsExplicit lines cfg = [] →
      Mcp.detectSectionsAuto lines cfg = [] →
      Mcp.generateIndexCore lines cfg =
        [⟨"main".data, "Main content".data, 1, lines.length, lines.length⟩]) := by
  refine ⟨?_, ?_, ?_⟩
  · intro h
    simp [Mcp.generateIndexCore, h]
  · intro h1 h2
    simp [Mcp.generateIndexCore, h1, h2]
  · intro h1 h2
    simp [Mcp.generateIndexCore, h1, h2]

/-- Claim C6 (counterexample to the literal statement): on a two-line file
the MCP auto scanner leaves the still-open imports section with end 1, not
the last line 2: the final push does not extend the section to the end of
the file. -/
theorem c6_mcp_final_end_short :
    Mcp.detectSectionsAuto (splitLines "import x\ny".data)
        (Mcp.detectLanguage "a.ts".data) =
      [⟨"imports".data, "Import statements".data, 1, 1, 1⟩] ∧
    (splitLines "import x\ny".data).length = 2 := by
  refine ⟨by decide, by decide⟩

/-- Claim C6 (amended): the CLI script's auto scanner does close the final
open section at the file's last line: a non-empty result always ends with a
section whose end is the total line count. -/
theorem c6_script_auto_closes_at_eof (content : Str) (plugin : Option Plugin)
    (h : Script.detectSectionsAuto content plugin ≠ []) :
    ∃ s, (Script.detectSectionsAuto content plugin).getLast? = some s ∧
      s.endL = (splitLines content).length := by
  unfold Script.detectSectionsAuto at h ⊢
  rcases groupGo_none_last
      (Script.detectLoop ((plugin.map (fun p => p.autoPatterns)).getD []) (splitLines content) 1)
      (splitLines content).length (splitLines content).length 1 [] with heq | ⟨nm2, st2, hl⟩
  · exact absurd heq h
  · exact ⟨⟨nm2, st2, (splitLines content).length, []⟩, hl, rfl⟩

/-- Witness for C6 at a concrete two-line TypeScript file. -/
theorem c6_script_auto_closes_at_eof_witness :
    ∃ s, (Script.detectSectionsAuto "import x\ny".data
        (getLanguagePlugin "a.ts".data)).getLast? = some s ∧
      s.endL = (splitLines "import x\ny".data).length :=
  c6_script_auto_closes_at_eof "import x\ny".data (getLanguagePlugin "a.ts".data)
    (by decide)

/-- Claim C7: when the content already holds an index block, indexFile
writes back the old content with exactly the old block's span replaced by
the new block: the prefix before the old start offset and the suffix after
the old end offset are byte-identical, and the new block sits at the old
start offset. -/
theorem c7_replace_at_same_offset (filePath content now : Str)
    (hp : (getLanguagePlugin filePath).isSome = true)
    (idx : ParsedIdx) (hidx : Mjs.parseIndex content = some idx) :
    Mjs.indexFile filePath content now =
      Except.ok ⟨content.take idx.startIndex ++
          Mjs.generateIndex (Mjs.resolveSections content (getLanguagePlugin filePath))
            (splitLines content).length now ++
          content.drop idx.endIndex,
        (Mjs.resolveSections content (getLanguagePlugin filePath)).length,
        (splitLines content).length, "updated".data⟩ := by
  obtain ⟨p, hp2⟩ := Option.isSome_iff_exists.1 hp
  rw [hp2]
  unfold Mjs.indexFile
  rw [hp2, hidx]
  simp [spliceIndex]

/-- Witness for C7 at a concrete TypeScript file holding an index block. -/
theorem c7_replace_at_same_offset_witness :
    Mjs.indexFile "a.ts".data "/**\n * @ai-index\n * | alpha | 1 | 2 |\n */\nx".data
        "T".data =
      Except.ok ⟨("/**\n * @ai-index\n * | alpha | 1 | 2 |\n */\nx".data).take 0 ++
          Mjs.generateIndex
            (Mjs.resolveSections "/**\n * @ai-index\n * | alpha | 1 | 2 |\n */\nx".data
              (getLanguagePlugin "a.ts".data))
            (splitLines "/**\n * @ai-index\n * | alpha | 1 | 2 |\n */\nx".data).length
            "T".data ++
          ("/**\n * @ai-index\n * | alpha | 1 | 2 |\n */\nx".data).drop 41,
        (Mjs.resolveSections "/**\n * @ai-index\n * | alpha | 1 | 2 |\n */\nx".data
          (getLanguagePlugin "a.ts".data)).length,
        (splitLines "/**\n * @ai-index\n * | alpha | 1 | 2 |\n */\nx".data).length,
        "updated".data⟩ :=
  c7_replace_at_same_offset "a.ts".data
    "/**\n * @ai-index\n * | alpha | 1 | 2 |\n */\nx".data "T".data (by decide)
    ⟨"/**\n * @ai-index\n * | alpha | 1 | 2 |\n */".data,
      [("alpha".data, ⟨1, 2, 1, []⟩)], 0, 41⟩ (by decide)

/-- Claim C8: readSection answers an unknown section name with an error
payload carrying every available section name, and a known name with the
section's line range and the joined slice of its lines. -/
theorem c8_read_section_payloads (filePath content sectionName : Str) :
    ((∀ s ∈ (Mcp.generateIndex filePath content).sections, s.name ≠ sectionName) →
      Mcp.readSection filePath content sectionName =
        .sectionErr ("Section \"".data ++ sectionName ++ "\" not found".data)
          ((Mcp.generateIndex filePath content).sections.map (fun s => s.name))) ∧
    (∀ s, (Mcp.generateIndex filePath content).sections.find?
        (fun t => t.name = sectionName) = some s →
      Mcp.readSection filePath content sectionName =
        .ok s.name s.line s.endL
          (joinLines (((splitLines content).drop (s.line - 1)).take
            (s.endL - (s.line - 1))))) := by
  constructor
  · intro hall
    have hfind : (Mcp.generateIndex filePath content).sections.find?
        (fun t => t.name = sectionName) = none :=
      List.find?_eq_none.2 (fun x hx => by simpa using hall x hx)
    simp [Mcp.readSection, hfind]
  · intro s hs
    simp [Mcp.readSection, hs]

/-- Claim C9 (counterexample to the literal statement): indexFile of
src/index.mjs throws on an unsupported extension, modelled as the error
result: this failure mode is an exception, not a structured skip. -/
theorem c9_mjs_unsupported_throws :
    Mjs.indexFile "notes.txt".data "hello".data "T".data =
      Except.error ("Unsupported file type: ".data ++ "notes.txt".data) := by
  rfl

/-- Claim C9 (amended): the CLI script's indexFile reports an unsupported
extension as the structured skip result. -/
theorem c9_script_unsupported_skip (filePath content now : Str) (minLines : Nat)
    (hmin : ¬(minLines ≠ 0 ∧ (splitLines content).length < minLines))
    (hp : getLanguagePlugin filePath = none) :
    Script.indexFile filePath content now minLines =
      .skipped "unsupported".data := by
  simp only [Script.indexFile]
  rw [if_neg hmin, hp]

/-- Witness for C9 at a concrete text file. -/
theorem c9_script_unsupported_skip_witness :
    Script.indexFile "notes.txt".data "hello".data "T".data 0 =
      .skipped "unsupported".data :=
  c9_script_unsupported_skip "notes.txt".data "hello".data "T".data 0
    (by simp) (by rfl)

/-- Claim C10 (counterexample to the literal statement): a block row without
the Size column parses to size end − start (29 for the range 1..30), not
end − start + 1. -/
theorem c10_sizeless_row_size :
    (Mjs.parseIndex "/**\n * @ai-index\n * | imports | 1 | 30 |\n */".data).map
      (fun idx => (lookupSect idx.sections "imports".data).map (fun p => p.size)) =
      some (some 29) ∧ (29 : Int) ≠ 30 - 1 + 1 := by
  refine ⟨by decide, by decide⟩

/-- Claim C10 (amended): every serialized table row carries
size = end − start + 1, and the round trip through the parser preserves
exactly that size for every well-formed section; only a row that omits the
Size column falls back to end − start. -/
theorem c10_size_roundtrip (S : List Sect) (N : Nat) (now : Str)
    (hnow1 : ∀ c ∈ now, c ≠ '|') (hnow2 : ∀ c ∈ now, c ≠ '*')
    (hser : ∀ s ∈ S, SerSect s) (hnodup : (S.map (fun s => s.name)).Nodup) :
    ∀ s ∈ S, (Mjs.parseIndex (Mjs.generateIndex S N now)).bind
        (fun idx => (lookupSect idx.sections s.name).map (fun p => p.size)) =
      some ((s.endL - s.line + 1 : Nat) : Int) := by
  intro s hs
  have h := roundtrip_lookup S N now hnow1 hnow2 hser hnodup s hs
  rcases hpi : Mjs.parseIndex (Mjs.generateIndex S N now) with _ | idx
  · rw [hpi] at h
    simp at h
  · rw [hpi] at h
    simp only [Option.some_bind] at h ⊢
    rw [h]
    rfl

/-- Witness for C10 at a concrete section list. -/
theorem c10_size_roundtrip_witness :
    (Mjs.parseIndex (Mjs.generateIndex [⟨"beta".data, 2, 5, "Desc".data⟩] 9 "D".data)).bind
        (fun idx => (lookupSect idx.sections "beta".data).map (fun p => p.size)) =
      some 4 :=
  c10_size_roundtrip [⟨"beta".data, 2, 5, "Desc".data⟩] 9 "D".data
    (by decide) (by decide) (by decide) (by decide)
    ⟨"beta".data, 2, 5, "Desc".data⟩ (by decide)

/-! ## C3: ordering and disjointness of the explicit scanner's output. -/

theorem getLast?_mem_gen {α : Type} : ∀ {l : List α} {a : α}, l.getLast? = some a → a ∈ l := by
  intro l
  induction l with
  | nil => intro a h; cases h
  | cons b t ih =>
    intro a h
    rcases t with _ | ⟨c, t2⟩
    · simp at h
      simp [h]
    · rw [List.getLast?_cons_cons] at h
      exact List.mem_cons_of_mem _ (ih h)

/-- Appending one section that starts after every accumulated end keeps the
chain. -/
theorem chain_append_one (acc : List Sect) (a : Sect)
    (hchain : acc.Chain' (fun x y => x.endL < y.line))
    (hb : ∀ s ∈ acc, s.endL < a.line) :
    (acc ++ [a]).Chain' (fun x y => x.endL < y.line) := by
  rw [List.chain'_append]
  refine ⟨hchain, List.chain'_singleton _, ?_⟩
  intro x hx y hy
  have hxm : x ∈ acc := getLast?_mem_gen hx
  have hya : a = y := by simpa using hy
  rw [← hya]
  exact hb x hxm

/-- splitLines never returns the empty list. -/
theorem splitLines_ne_nil (s : Str) : splitLines s ≠ [] := by
  induction s with
  | nil => simp [splitLines]
  | cons c rest ih =>
    rw [splitLines]
    by_cases hc : c = '\n'
    · rw [if_pos hc]
      simp
    · rw [if_neg hc]
      rcases hsp : splitLines rest with _ | ⟨l, ls⟩
      · simp
      · simp

/-- The scanner loop invariant: starting above line 0 with a sorted,
line-disjoint accumulator whose sections end before the open section starts
(or before the current line when none is open), the loop returns a list of
sections with start ≤ end, sorted by start, with consecutive sections on
disjoint line ranges. -/
theorem findSectionsGo_inv (rs : Str → Option (Str × Option Str)) (re : Str → Bool)
    (sm : Str → Option Str) :
    ∀ (lines : List Str) (i : Nat) (op : Option OpenSec) (acc : List Sect),
    1 ≤ i →
    (∀ s ∈ acc, s.line ≤ s.endL) →
    acc.Chain' (fun a b => a.endL < b.line) →
    (match op with
     | some o => (∀ s ∈ acc, s.endL < o.start) ∧ o.start < i
     | none => ∀ s ∈ acc, s.endL < i) →
    (∀ s ∈ Mjs.findSectionsGo rs re sm lines i op acc, s.line ≤ s.endL) ∧
    (Mjs.findSectionsGo rs re sm lines i op acc).Chain' (fun a b => a.endL < b.line) := by
  intro lines
  induction lines with
  | nil =>
    intro i op acc hi hall hchain hop
    rcases op with _ | o
    · simp only [Mjs.findSectionsGo]
      exact ⟨hall, hchain⟩
    · obtain ⟨hb, hlt⟩ := hop
      simp only [Mjs.findSectionsGo]
      have hle : o.start ≤ i - 1 := by omega
      constructor
      · intro s hs
        rcases List.mem_append.1 hs with hs | hs
        · exact hall s hs
        · rw [List.mem_singleton.1 hs]
          exact hle
      · exact chain_append_one acc _ hchain hb
  | cons l rest ih =>
    intro i op acc hi hall hchain hop
    rcases hrs : rs l with _ | ⟨nm, dsc⟩
    · by_cases hre : re l
      · rcases op with _ | o
        · rw [show Mjs.findSectionsGo rs re sm (l :: rest) i none acc =
              Mjs.findSectionsGo rs re sm rest (i + 1) none acc from by
            simp only [Mjs.findSectionsGo, hrs, hre, if_true]]
          exact ih (i + 1) none acc (by omega) hall hchain
            (fun s hs => by have := hop s hs; omega)
        · obtain ⟨hb, hlt⟩ := hop
          rw [show Mjs.findSectionsGo rs re sm (l :: rest) i (some o) acc =
              Mjs.findSectionsGo rs re sm rest (i + 1) none
                (acc ++ [⟨o.name, o.start, i, o.desc⟩]) from by
            simp only [Mjs.findSectionsGo, hrs, hre, if_true]]
          have hle : o.start ≤ i := by omega
          refine ih (i + 1) none (acc ++ [⟨o.name, o.start, i, o.desc⟩]) (by omega) ?_ ?_ ?_
          · intro s hs
            rcases List.mem_append.1 hs with hs | hs
            · exact hall s hs
            · rw [List.mem_singleton.1 hs]
              exact hle
          · exact chain_append_one acc _ hchain hb
          · intro s hs
            rcases List.mem_append.1 hs with hs | hs
            · have := hb s hs
              omega
            · rw [List.mem_singleton.1 hs]
              show i < i + 1
              omega
      · rcases hsm : sm l with _ | nm2
        · rcases op with _ | o
          · rw [show Mjs.findSectionsGo rs re sm (l :: rest) i none acc =
                Mjs.findSectionsGo rs re sm rest (i + 1) none acc from by
              simp only [Mjs.findSectionsGo, hrs, hsm]
              rw [if_neg hre]]
            exact ih (i + 1) none acc (by omega) hall hchain
              (fun s hs => by have := hop s hs; omega)
          · obtain ⟨hb, hlt⟩ := hop
            rw [show Mjs.findSectionsGo rs re sm (l :: rest) i (some o) acc =
                Mjs.findSectionsGo rs re sm rest (i + 1) (some o) acc from by
              simp only [Mjs.findSectionsGo, hrs, hsm]
              rw [if_neg hre]]
            exact ih (i + 1) (some o) acc (by omega) hall hchain ⟨hb, by omega⟩
        · rcases op with _ | o
          · rw [show Mjs.findSectionsGo rs re sm (l :: rest) i none acc =
                Mjs.findSectionsGo rs re sm rest (i + 1)
                  (some ⟨trimStr nm2, [], i⟩) acc from by
              simp only [Mjs.findSectionsGo, hrs, hsm]
              rw [if_neg hre]]
            exact ih (i + 1) (some ⟨trimStr nm2, [], i⟩) acc (by omega) hall hchain
              ⟨fun s hs => hop s hs, by show i < i + 1; omega⟩
          · obtain ⟨hb, hlt⟩ := hop
            rw [show Mjs.findSectionsGo rs re sm (l :: rest) i (some o) acc =
                Mjs.findSectionsGo rs re sm rest (i + 1) (some ⟨trimStr nm2, [], i⟩)
                  (acc ++ [⟨o.name, o.start, i - 1, o.desc⟩]) from by
              simp only [Mjs.findSectionsGo, hrs, hsm]
              rw [if_neg hre]]
            have hle : o.start ≤ i - 1 := by omega
            refine ih (i + 1) (some ⟨trimStr nm2, [], i⟩)
              (acc ++ [⟨o.name, o.start, i - 1, o.desc⟩]) (by omega) ?_ ?_ ?_
            · intro s hs
              rcases List.mem_append.1 hs with hs | hs
              · exact hall s hs
              · rw [List.mem_singleton.1 hs]
                exact hle
            · exact chain_append_one acc _ hchain hb
            · refine ⟨?_, by show i < i + 1; omega⟩
              intro s hs
              rcases List.mem_append.1 hs with hs | hs
              · have := hb s hs
                show s.endL < i
                omega
              · rw [List.mem_singleton.1 hs]
                show i - 1 < i
                omega
    · rcases op with _ | o
      · rw [show Mjs.findSectionsGo rs re sm (l :: rest) i none acc =
            Mjs.findSectionsGo rs re sm rest (i + 1)
              (some ⟨trimStr nm, (dsc.map trimStr).getD [], i⟩) acc from by
          simp only [Mjs.findSectionsGo, hrs]]
        exact ih (i + 1) (some ⟨trimStr nm, (dsc.map trimStr).getD [], i⟩) acc (by omega)
          hall hchain ⟨fun s hs => hop s hs, by show i < i + 1; omega⟩
      · obtain ⟨hb, hlt⟩ := hop
        rw [show Mjs.findSectionsGo rs re sm (l :: rest) i (some o) acc =
            Mjs.findSectionsGo rs re sm rest (i + 1)
              (some ⟨trimStr nm, (dsc.map trimStr).getD [], i⟩)
              (acc ++ [⟨o.name, o.start, i - 1, o.desc⟩]) from by
          simp only [Mjs.findSectionsGo, hrs]]
        have hle : o.start ≤ i - 1 := by omega
        refine ih (i + 1) (some ⟨trimStr nm, (dsc.map trimStr).getD [], i⟩)
          (acc ++ [⟨o.name, o.start, i - 1, o.desc⟩]) (by omega) ?_ ?_ ?_
        · intro s hs
          rcases List.mem_append.1 hs with hs | hs
          · exact hall s hs
          · rw [List.mem_singleton.1 hs]
            exact hle
        · exact chain_append_one acc _ hchain hb
        · refine ⟨?_, by show i < i + 1; omega⟩
          intro s hs
          rcases List.mem_append.1 hs with hs | hs
          · have := hb s hs
            show s.endL < i
            omega
          · rw [List.mem_singleton.1 hs]
            show i - 1 < i
            omega

/-- Claim C3: the resolved section list of indexFile of src/index.mjs
satisfies start ≤ end for every section, is sorted by start ascending, and
consecutive sections never share a line: each section ends strictly before
the next begins. -/
theorem c3_sections_ordered (content : Str) (plugin : Option Plugin) :
    (∀ s ∈ Mjs.resolveSections content plugin, s.line ≤ s.endL) ∧
    (Mjs.resolveSections content plugin).Chain' (fun a b => a.endL < b.line) := by
  have hfs : (∀ s ∈ Mjs.findSections content plugin, s.line ≤ s.endL) ∧
      (Mjs.findSections content plugin).Chain' (fun a b => a.endL < b.line) :=
    findSectionsGo_inv
      ((plugin.bind (fun p => p.regionStart)).getD tsRegionStart)
      ((plugin.bind (fun p => p.regionEnd)).getD tsRegionEnd)
      ((plugin.bind (fun p => p.sectionMarker)).getD tsSectionMarker)
      (splitLines content) 1 none [] (le_refl 1) (by simp) (by simp) (by simp)
  by_cases hlen : (Mjs.findSections content plugin).length = 0
  · have hmain : Mjs.resolveSections content plugin =
        [⟨"main".data, 1, (splitLines content).length, "Main content".data⟩] := by
      simp only [Mjs.resolveSections]
      rw [if_pos hlen]
    rw [hmain]
    constructor
    · intro s hs
      rw [List.mem_singleton.1 hs]
      show 1 ≤ (splitLines content).length
      rcases hsp : splitLines content with _ | ⟨a, t⟩
      · exact absurd hsp (splitLines_ne_nil content)
      · simp
    · exact List.chain'_singleton _
  · have hsec : Mjs.resolveSections content plugin = Mjs.findSections content plugin := by
      simp only [Mjs.resolveSections]
      rw [if_neg hlen]
    rw [hsec]
    exact hfs
